import Mathlib

/-!
# uTools-CAS-doc generator: fetch, cache, convert, assemble

A shallow embedding of `uTools-CAS-doc-generate.js`.

* JavaScript strings are `Text` (lists of characters), buffers are `Bytes`
  (lists of byte values).
* Asynchronous functions are state-passing functions `St → Outcome α × St`:
  a promise is fulfilled (`ok`), rejected (`thrown`) or never settles
  (`hung`).
* The collaborators the script only calls (the HTTP transport, the cheerio
  selector engine, the WHATWG URL parser on markup hrefs, pdf2json, word,
  mammoth) are the fields of `World`.
* `path` is the POSIX flavour of Node's `path` module.
* Tasks started together run one after the other, in the order of their
  array. The cache write `cachedFetch` starts is not awaited by the script:
  it is kept in `St.inFlight` and lands during the next `sleep` of one
  second (`settleWrites`). So the page `index.htm` of a section without
  sub-sections, which shares its cache entry with the listing of the
  section, is read from the cache.
* Logging is left out.
-/

namespace CasDoc

/-! ## Text and buffers -/

/-- A JavaScript string. -/
abbrev Text := List Char

/-- A Node `Buffer`: a sequence of byte values. -/
abbrev Bytes := List Nat

/-- UTF-8 encoding of one character, as byte values. -/
def utf8Char (c : Char) : Bytes :=
  let n := c.toNat
  if n < 0x80 then [n]
  else if n < 0x800 then [0xC0 + n / 0x40, 0x80 + n % 0x40]
  else if n < 0x10000 then [0xE0 + n / 0x1000, 0x80 + (n / 0x40) % 0x40, 0x80 + n % 0x40]
  else [0xF0 + n / 0x40000, 0x80 + (n / 0x1000) % 0x40, 0x80 + (n / 0x40) % 0x40, 0x80 + n % 0x40]

/-- UTF-8 encoding of a string (what `Buffer.includes(string)` searches for). -/
def utf8 (s : Text) : Bytes := s.flatMap utf8Char

/-- Whether `needle` is a prefix of `hay`. -/
def startsWith {α : Type} [DecidableEq α] : List α → List α → Bool
  | _, [] => true
  | [], _ :: _ => false
  | h :: hs, n :: ns => if h = n then startsWith hs ns else false

/-- The method `includes` of strings and buffers: `needle` occurs in `hay`. -/
def includes {α : Type} [DecidableEq α] : List α → List α → Bool
  | [], needle => startsWith [] needle
  | h :: hs, needle => startsWith (h :: hs) needle || includes hs needle

/-- ECMAScript white space and line terminators: the class `\s`, also what
`String.prototype.trim` strips. -/
def isSpace (c : Char) : Bool :=
  let n := c.toNat
  n = 0x09 || n = 0x0A || n = 0x0B || n = 0x0C || n = 0x0D || n = 0x20 || n = 0xA0 ||
  n = 0x1680 || (0x2000 ≤ n && n ≤ 0x200A) || n = 0x2028 || n = 0x2029 || n = 0x202F ||
  n = 0x205F || n = 0x3000 || n = 0xFEFF

/-- The regular-expression class `\d`. -/
def isDigit (c : Char) : Bool := 48 ≤ c.toNat && c.toNat ≤ 57

/-- The regular-expression class `\w`. -/
def isWord (c : Char) : Bool :=
  isDigit c || (65 ≤ c.toNat && c.toNat ≤ 90) || (97 ≤ c.toNat && c.toNat ≤ 122) || c = '_'

/-- The method `String.prototype.trim`. -/
def trim (s : Text) : Text :=
  ((s.dropWhile isSpace).reverse.dropWhile isSpace).reverse

/-- The method `split` with a one-character separator. -/
def splitOn (sep : Char) : Text → List Text
  | [] => [[]]
  | c :: cs =>
    if c = sep then [] :: splitOn sep cs
    else
      match splitOn sep cs with
      | [] => [[c]]
      | p :: ps => (c :: p) :: ps

/-- The method `Array.prototype.join`. -/
def joinWith (sep : Text) (parts : List Text) : Text := sep.intercalate parts

/-- The method `toLowerCase`, on the ASCII letters (the only ones that can
lower-case to a key of the parser table). -/
def toLowerCase (s : Text) : Text := s.map Char.toLower

/-! ## POSIX `path` -/

/-- Node's `normalizeString` on path segments: empty and `.` segments are
dropped, `..` removes the segment before it, and is kept when there is none
and the path may climb above its root. `acc` is the result so far, reversed. -/
def normalizeSegs (allowAboveRoot : Bool) : List Text → List Text → List Text
  | acc, [] => acc.reverse
  | acc, s :: rest =>
    if s = [] ∨ s = ['.'] then normalizeSegs allowAboveRoot acc rest
    else if s = ['.', '.'] then
      match acc with
      | [] => normalizeSegs allowAboveRoot (if allowAboveRoot then [s] else []) rest
      | a :: acc' =>
        if a = ['.', '.'] then
          normalizeSegs allowAboveRoot (if allowAboveRoot then s :: a :: acc' else a :: acc') rest
        else normalizeSegs allowAboveRoot acc' rest
    else normalizeSegs allowAboveRoot (s :: acc) rest

/-- The function `path.normalize`. -/
def pathNormalize (p : Text) : Text :=
  if p = [] then ['.']
  else
    let isAbsolute := p.head? = some '/'
    let trailing := p.getLast? = some '/'
    let body := joinWith ['/'] (normalizeSegs (!isAbsolute) [] (splitOn '/' p))
    if body = [] then
      if isAbsolute then ['/'] else if trailing then ['.', '/'] else ['.']
    else
      let body := if trailing then body ++ ['/'] else body
      if isAbsolute then '/' :: body else body

/-- The function `path.join`: the non-empty arguments joined by `/`, then
normalised. -/
def pathJoin (parts : List Text) : Text :=
  match parts.filter (fun s => s ≠ []) with
  | [] => ['.']
  | ps => pathNormalize (joinWith ['/'] ps)

/-- Removes the trailing slashes of a path. -/
def dropTrailingSlashes (p : Text) : Text :=
  (p.reverse.dropWhile (fun c => c = '/')).reverse

/-- The function `path.basename`: the last segment, trailing slashes ignored. -/
def basename (p : Text) : Text :=
  ((dropTrailingSlashes p).reverse.takeWhile (fun c => c ≠ '/')).reverse

/-- The function `path.dirname`. -/
def dirname (p : Text) : Text :=
  let d := dropTrailingSlashes
    ((dropTrailingSlashes p).reverse.dropWhile (fun c => c ≠ '/')).reverse
  if d = [] then (if p.head? = some '/' then ['/'] else ['.']) else d

/-- The function `path.extname`: from the last dot of the base name to its
end; empty when there is no dot, when the only dot starts the base name, and
for the base name `..`. -/
def extname (p : Text) : Text :=
  let b := basename p
  let after := b.reverse.takeWhile (fun c => c ≠ '.')
  let upto := b.reverse.dropWhile (fun c => c ≠ '.')
  match upto with
  | [] => []
  | _ :: before =>
    if before = [] ∨ b = ['.', '.'] then [] else '.' :: after.reverse

/-- The function `path.resolve` of one argument, on segments: a relative path
is taken under the working directory `cwd` (given by its segments). -/
def pathResolve (cwd : List Text) (p : Text) : List Text :=
  if p.head? = some '/' then normalizeSegs false [] (splitOn '/' p)
  else normalizeSegs false [] (cwd ++ splitOn '/' p)

/-- Drops the longest common prefix of two segment lists. -/
def dropCommon : List Text → List Text → List Text × List Text
  | a :: as, b :: bs => if a = b then dropCommon as bs else (a :: as, b :: bs)
  | as, bs => (as, bs)

/-- The function `path.relative`: both paths are resolved, their common
leading segments dropped, and every segment left of `source` becomes `..`
before what is left of `target`. -/
def pathRelative (cwd : List Text) (source target : Text) : Text :=
  if source = target then []
  else
    let r := dropCommon (pathResolve cwd source) (pathResolve cwd target)
    joinWith ['/'] (r.1.map (fun _ => ['.', '.']) ++ r.2)

/-! ## Configuration -/

/-- The constant `pubDir`. -/
def pubDir : Text := "public".toList

/-- The constant `staticDir`. -/
def staticDir : Text := pathJoin [pubDir, "static".toList]

/-- The constant `cacheDir`. -/
def cacheDir : Text := "cache".toList

/-- The text a cached page carries when the site answered "not found". -/
def notFoundMarker : Text := "温馨提示：您访问的页面不存在或已删除".toList

/-- The address the site redirects a missing listing page to. -/
def notFoundUrl : Text := "http://www.mof.gov.cn/404.htm".toList

/-- The origin of `BASEURL`. -/
def baseOrigin : Text := "http://kjs.mof.gov.cn".toList

/-! ## Locators, responses, the environment and the state -/

/-- A parsed absolute URL (`URL.URL`). -/
structure Url where
  origin : Text
  pathname : Text
  search : Text
  hash : Text
deriving DecidableEq

/-- The method `toString` of a URL. -/
def Url.toString (u : Url) : Text := u.origin ++ u.pathname ++ u.search ++ u.hash

/-- The constant `BASEURL`. -/
def BASEURL : Url := ⟨baseOrigin, "/zt/kjzzss/".toList, [], []⟩

/-- The call `new URL.URL(rel, base)` for the references the script builds
itself (a name made of word characters, dots and an optional final slash,
such as `qitgd/` or `index_3.htm`): the last path segment of the base is
replaced by the reference, query and fragment are dropped. -/
def Url.resolveName (rel : Text) (base : Url) : Url :=
  { origin := base.origin
    pathname := (base.pathname.reverse.dropWhile (fun c => c ≠ '/')).reverse ++ rel
    search := []
    hash := [] }

/-- An HTTP response: its status, the final address (empty for a response
built from the cache) and its body. -/
structure Response where
  status : Nat
  url : Text
  body : Bytes
deriving DecidableEq

/-- The property `ok` of a response: a status in 200..299. -/
def Response.ok (r : Response) : Bool := 200 ≤ r.status && r.status ≤ 299

/-- The second argument of `fetch`. -/
abbrev FetchOptions := List (Text × Text)

/-- An anchor element returned by a selector: its attributes and its text. -/
structure Anchor where
  href : Option Text
  title : Option Text
  text : Text
deriving DecidableEq

/-- What pdf2json reports for a buffer. -/
inductive PdfEvent where
  | dataReady (rawText : Text)
  | dataError
  | parseThrows
deriving DecidableEq

/-- The collaborators of the script. A page is queried through its bytes:
each selector field stands for `cheerio.load(await res.text())` followed by
the selector of that name. -/
structure World where
  /-- The global `fetch`; `none` is a transport failure (a rejected promise). -/
  network : Url → FetchOptions → Option Response
  /-- The call `new URL.URL(href, base)` on an href found in markup; `none`
  is the `TypeError` of an invalid URL. -/
  resolve : Text → Url → Option Url
  /-- The selector `div.zzright>div.listBox>h2.li-tit>span.on>a`. -/
  subPageRefs : Bytes → List Anchor
  /-- The selector `div.zzright>div.listBox ul.liBox>li>a`. -/
  listItems : Bytes → List Anchor
  /-- The selector `#appendix>a`. -/
  qaLinks : Bytes → List Anchor
  /-- The selector `#appendix1>a`. -/
  attachLinks : Bytes → List Anchor
  /-- The selector `div.mainboxerji>div.box_content` once the boilerplate
  elements are removed: the markup of each matched element. -/
  content : Bytes → List Text
  /-- The events of `PDFParser.parseBuffer`. -/
  pdfParser : Bytes → PdfEvent
  /-- The text `WORD.to_text(WORD.read(buffer))`; `none` when it throws. -/
  wordText : Bytes → Option Text
  /-- The value of `mammoth.convertToHtml`; `none` when it rejects. -/
  mammoth : Bytes → Option Text
  /-- The working directory, as segments (`process.cwd()`). -/
  cwd : List Text

/-- An element of an assembled document: its `id` and its markup. -/
structure Element where
  id : Text
  markup : Text
deriving DecidableEq

/-- A cheerio document under assembly (`$new`): what was appended to its
head and to its body. -/
structure Composite where
  head : List Text
  body : List Element
deriving DecidableEq

/-- A document descriptor, with the field names of the script. -/
structure Descriptor where
  url : Url
  t : Text
  d : Text
  p : Text
deriving DecidableEq

/-- An entry of `docListPageUrls`; `none` is `null`. -/
structure SubSection where
  sec : Text
  secName : Text
  subSec : Option Text
  subSecName : Option Text
  url : Url
deriving DecidableEq

/-- The state the script acts on. -/
structure St where
  /-- The files under `cacheDir`, by path. Directories are not entries, and
  `mkdirSync`/`writeFileSync` are taken to succeed. -/
  cache : Text → Option Bytes
  /-- Cache writes started by `cachedFetch` that have not landed yet. -/
  inFlight : List (Text × Bytes)
  /-- The network accesses made, in order. -/
  fetched : List Url
  /-- The converter invocations made, by parser-table key. -/
  converted : List Text
  /-- The pages written by `saveHTML`, in order. -/
  files : List (Text × Composite)
  /-- The array `indexes` of the running `getIndex` call. -/
  indexes : List Descriptor
  /-- The array `utoolsIndex` of `main`. -/
  utoolsIndex : List Descriptor
  /-- The content of `index.json`, once written. -/
  indexJson : Option (List Descriptor)

/-- How an asynchronous call ends: its promise is fulfilled, is rejected
(or the call throws), or never settles. -/
inductive Outcome (α : Type) where
  | ok (a : α)
  | thrown (error : String)
  | hung
deriving DecidableEq

/-- An asynchronous computation: from a state to an outcome and the state
its effects leave. -/
def Async (α : Type) : Type := St → Outcome α × St

/-- Sequencing (`await`): a rejection or a promise that never settles ends
the caller the same way, the effects made so far staying. -/
def Async.bind {α β : Type} (m : Async α) (f : α → Async β) : Async β := fun st =>
  match m st with
  | (.ok a, st1) => f a st1
  | (.thrown e, st1) => (.thrown e, st1)
  | (.hung, st1) => (.hung, st1)

instance : Monad Async where
  pure a := fun st => (.ok a, st)
  bind := Async.bind

/-- A `throw`. -/
def throwJs {α : Type} (e : String) : Async α := fun st => (.thrown e, st)

/-- The method `catch` of a promise, with a handler that returns `v`. -/
def catchWith {α : Type} (m : Async α) (v : α) : Async α := fun st =>
  match m st with
  | (.thrown _, st1) => (.ok v, st1)
  | r => r

/-- A promise settled as `o`, without effect. -/
def settled {α : Type} (o : Outcome α) : Async α := fun st => (o, st)

/-- The current state. -/
def getSt : Async St := fun st => (.ok st, st)

/-- A change of the state. -/
def modifySt (f : St → St) : Async Unit := fun st => (.ok (), f st)

/-- How `Promise.all` settles from two of its promises: rejected when one is,
else never when one never settles. -/
def joinOutcome : Outcome Unit → Outcome Unit → Outcome Unit
  | .thrown e, _ => .thrown e
  | .ok _, r => r
  | .hung, .thrown e => .thrown e
  | .hung, _ => .hung

/-- The call `Promise.all` on tasks started together, under the schedule that
runs them one after the other: every task runs (a rejection does not stop the
others), and the result is rejected when a task rejects. -/
def promiseAll (tasks : List (Async Unit)) : Async Unit := fun st =>
  tasks.foldl (fun (acc : Outcome Unit × St) task =>
    let r := task acc.2
    (joinOutcome acc.1 r.1, r.2)) (.ok (), st)

/-! ## ContentCache -/

/-- The path of the cache entry of a locator: the segments of its path name,
the last one replaced by `index.htm` when empty, under `cacheDir`. -/
def cachePath (url : Url) : Text :=
  let urlPath := splitOn '/' url.pathname
  let last := urlPath.getLastD []
  pathJoin (cacheDir :: (urlPath.dropLast ++ [if last = [] then "index.htm".toList else last]))

/-- The response built from a cache entry. -/
def cachedResponse (cacheFile : Bytes) : Response :=
  if includes cacheFile (utf8 notFoundMarker) then ⟨404, [], []⟩
  else ⟨200, [], cacheFile⟩

/-- The function `cachedFetch`. On a hit nothing but the cache is read. On a
miss the network is asked, and the write of the body to the cache is started
but not awaited: it lands with `settleWrites`. -/
def cachedFetch (w : World) (url : Url) (options : FetchOptions) (useCache : Bool) :
    Async Response := fun st =>
  let path := cachePath url
  match (if useCache then st.cache path else none) with
  | some cacheFile => (.ok (cachedResponse cacheFile), st)
  | none =>
    let st1 := { st with fetched := st.fetched ++ [url] }
    match w.network url options with
    | none => (.thrown "fetch failed", st1)
    | some res => (.ok res, { st1 with inFlight := st1.inFlight ++ [(path, res.body)] })

/-- One cache write landing (`fs.writeFileSync(cachePath, buf)`). -/
def writeCache (cache : Text → Option Bytes) (entry : Text × Bytes) : Text → Option Bytes :=
  fun p => if p = entry.1 then some entry.2 else cache p

/-- All the cache writes in flight land, in the order they were started. -/
def settleWrites (st : St) : St :=
  { st with cache := st.inFlight.foldl writeCache st.cache, inFlight := [] }

/-- The call `await sleep(1000)`: the second in which the cache writes in
flight land. -/
def sleep : Async Unit := modifySt settleWrites

/-! ## DocumentConverter -/

/-- The function `parseDocx`: the value of mammoth, or `undefined` (`none`)
when mammoth rejects, the error being logged. -/
def parseDocx (w : World) (buffer : Bytes) : Outcome (Option Text) :=
  .ok (w.mammoth buffer)

/-- The text transformation of `parseDoc`: every line wrapped in a paragraph
tag, the paragraphs joined without separator. -/
def parseDocText (text : Text) : Text :=
  joinWith [] ((splitOn '\n' text).map (fun line => "<p>".toList ++ line ++ "</p>".toList))

/-- The function `parseDoc`. -/
def parseDoc (w : World) (buffer : Bytes) : Outcome (Option Text) :=
  match w.wordText buffer with
  | none => .thrown "WORD.read failed"
  | some text => .ok (some (parseDocText text))

/-- Removes `pre` from the front of `s`, when it is there. -/
def stripPrefix : Text → Text → Option Text
  | [], s => some s
  | _ :: _, [] => none
  | p :: ps, c :: cs => if p = c then stripPrefix ps cs else none

/-- Sixteen dashes (`-{16}`). -/
def dashes16 : Text := List.replicate 16 '-'

/-- One match of the pattern `-{16}Page \(\d+\) Break-{16}(\s+\d+)?` at the front of
`s`: what follows the match. The quantifiers are greedy, and the optional
group is taken when white space followed by a digit is there. -/
def matchBanner (s : Text) : Option Text := do
  let s1 ← stripPrefix dashes16 s
  let s2 ← stripPrefix "Page (".toList s1
  if s2.takeWhile isDigit = [] then none
  let s3 ← stripPrefix ") Break".toList (s2.dropWhile isDigit)
  let s4 ← stripPrefix dashes16 s3
  let s5 := s4.dropWhile isSpace
  if s4.takeWhile isSpace ≠ [] ∧ s5.takeWhile isDigit ≠ [] then some (s5.dropWhile isDigit)
  else some s4

/-- The global replacement of the banner pattern by the empty string:
`skip` characters of a match are still to be dropped; otherwise a match
starting here is dropped, and a character that starts none is kept. -/
def removeBannersFrom : Nat → Text → Text
  | _, [] => []
  | skip + 1, _ :: cs => removeBannersFrom skip cs
  | 0, c :: cs =>
    match matchBanner (c :: cs) with
    | some rest => removeBannersFrom ((c :: cs).length - rest.length - 1) cs
    | none => c :: removeBannersFrom 0 cs

/-- The call `replace` with the banner pattern, flag `g`, and the empty
string. -/
def removeBanners (s : Text) : Text := removeBannersFrom 0 s

/-- The call `replace` with the pattern `^1` and the empty string. -/
def stripLeadingOne : Text → Text
  | '1' :: cs => cs
  | s => s

/-- The tail of the chain of `parsePdf`: the text split into lines, every
trimmed line wrapped in a paragraph tag, the paragraphs joined by newlines. -/
def pdfParagraphs (text : Text) : Text :=
  joinWith ['\n'] ((splitOn '\n' text).map
    (fun line => "<p>".toList ++ trim line ++ "</p>".toList))

/-- The text transformation of `parsePdf`. -/
def parsePdfText (raw : Text) : Text :=
  pdfParagraphs (stripLeadingOne (removeBanners raw))

/-- The function `parsePdf`: resolved from the `dataReady` handler only, so
that a data error leaves the promise unsettled; a throw of `parseBuffer`
inside the executor rejects it. -/
def parsePdf (w : World) (buffer : Bytes) : Outcome (Option Text) :=
  match w.pdfParser buffer with
  | .dataReady raw => .ok (some (parsePdfText raw))
  | .dataError => .hung
  | .parseThrows => .thrown "parseBuffer failed"

/-- The table `parsers` of `DLAttachment`, by key. -/
def parsers (extension : Text) : Option (World → Bytes → Outcome (Option Text)) :=
  if extension = ".pdf".toList then some parsePdf
  else if extension = ".doc".toList then some parseDoc
  else if extension = ".docx".toList then some parseDocx
  else none

/-- A value inside a template literal: `undefined` prints as such. -/
def render : Option Text → Text
  | some t => t
  | none => "undefined".toList

/-- The function `DLAttachment`. Its result is the elements of the loaded
document, or `undefined` (`none`) when the final `catch` handled a rejection
of the fetch or of the converter. -/
def DLAttachment (w : World) (atthUrl : Url) : Async (Option (List Element)) :=
  let extension := toLowerCase (extname atthUrl.toString)
  match parsers extension with
  | none => pure (some [])
  | some parser =>
    catchWith (do
      let res ← cachedFetch w atthUrl [] true
      modifySt (fun st => { st with converted := st.converted ++ [extension] })
      let docXml ← settled (parser w res.body)
      pure (some [⟨"attachment".toList, render docXml⟩])) none

/-! ## PageAssembler -/

/-- An attribute read that is then dereferenced (`.trim()`): a missing
attribute is a `TypeError`. -/
def attrOrThrow (attr : Option Text) : Async Text :=
  match attr with
  | some v => pure v
  | none => throwJs "cannot read properties of undefined"

/-- The call `new URL.URL(href, base)` on an href found in markup. -/
def newURL (w : World) (href : Text) (base : Url) : Async Url :=
  match w.resolve href base with
  | some u => pure u
  | none => throwJs "invalid URL"

/-- A path argument that is truthy: neither `null` nor the empty string. -/
def truthyPath : Option Text → Option Text
  | some (c :: cs) => some (c :: cs)
  | _ => none

/-- The stylesheet reference of `saveHTML`: the path from `docPath` to
`CasDoc.css` under `staticDir`, its separators made slashes. -/
def cssPathOf (cwd : List Text) (docPath : Text) : Text :=
  let parentPath := pathRelative cwd docPath (pathJoin [staticDir, "CasDoc.css".toList])
  pathJoin (splitOn '/' parentPath)

/-- The link element `saveHTML` appends to the head. -/
def stylesheetLink (cssPath : Text) : Text :=
  "<link rel=\"stylesheet\" href=\"".toList ++ cssPath ++ "\" type=\"text/css\"/>".toList

/-- The body of `saveHTML`, its recursive call being `self`. The result is
`undefined` (`none`) or the selection `$new("#" + htmlType)`. -/
def saveHTMLBody (self : Url → Text → Option Text → Text → Async (Option (List Element)))
    (w : World) (docUrl : Url) (_docName : Text) (docPath : Option Text) (htmlType : Text) :
    Async (Option (List Element)) := do
  sleep
  let res ← cachedFetch w docUrl [] true
  if !res.ok then return none
  let QA := w.qaLinks res.body
  let attach := w.attachLinks res.body
  let content := (w.content res.body).map (fun m => (⟨htmlType, m⟩ : Element))
  let mut body := content
  if htmlType = "document".toList ∧ attach ≠ [] then
    let href ← attrOrThrow (attach.head?.bind (fun a => a.href))
    let attachUrl ← newURL w (trim href) docUrl
    let attachHtml ← DLAttachment w attachUrl
    match attachHtml with
    | none => throwJs "attachHtml is not a function"
    | some doc => body := body ++ doc.filter (fun e => e.id = "attachment".toList)
  if htmlType = "document".toList ∧ QA ≠ [] then
    let href ← attrOrThrow (QA.head?.bind (fun a => a.href))
    let QAUrl ← newURL w (trim href) docUrl
    let QAName := (QA.map (fun a => a.text)).flatten
    let QADom ← self QAUrl QAName none "QA".toList
    body := body ++ QADom.getD []
  match truthyPath docPath with
  | none => return some (body.filter (fun e => e.id = htmlType))
  | some path =>
    let cssPath := cssPathOf w.cwd path
    modifySt (fun st =>
      { st with files := st.files ++ [(path, ⟨[stylesheetLink cssPath], body⟩)] })
    return none

/-- The function `saveHTML`, unfolded `fuel` times. -/
def saveHTMLFuel (w : World) : Nat → Url → Text → Option Text → Text →
    Async (Option (List Element))
  | 0 => fun _ _ _ _ => settled .hung
  | fuel + 1 => saveHTMLBody (saveHTMLFuel w fuel) w

/-- The function `saveHTML`. Its recursive call is made with the type `QA`,
under which no further call is made: two unfoldings are all it takes
(`saveHTML_unfold` below). -/
def saveHTML (w : World) : Url → Text → Option Text → Text → Async (Option (List Element)) :=
  saveHTMLFuel w 2

/-! ## IndexDiscovery -/

/-- The first match of the pattern `(?<=\.\/)\w+?(?=\/)`: a run of word
characters that follows `./` and is followed by `/`. `p2` and `p1` are the
two characters before the current position. -/
def matchSubSecAt (p2 p1 : Option Char) : Text → Option Text
  | [] => none
  | c :: cs =>
    if p2 = some '.' ∧ p1 = some '/' ∧ (c :: cs).takeWhile isWord ≠ [] ∧
        ((c :: cs).dropWhile isWord).head? = some '/' then
      some ((c :: cs).takeWhile isWord)
    else matchSubSecAt p1 (some c) cs

/-- The call `href.match(...)`; `none` is `null`. -/
def matchSubSec (href : Text) : Option Text := matchSubSecAt none none href

/-- The callback of the `forEach` over the list-item links of a page: one
descriptor is pushed to `indexes`. -/
def pushDescriptor (w : World) (item : SubSection) (docDir : Text) (dom : Anchor) :
    Async Unit := do
  let title ← attrOrThrow dom.title
  let docTitle := trim title
  let href ← attrOrThrow dom.href
  let docUrl ← newURL w (trim href) item.url
  let docSrcName := basename docUrl.toString
  let docPath := pathJoin [docDir, docSrcName]
  let docDesc := joinWith " > ".toList
    ["企业会计准则".toList, item.secName, item.subSecName.getD [], docTitle]
  modifySt (fun st => { st with indexes := st.indexes ++ [⟨docUrl, docTitle, docDesc, docPath⟩] })

/-- The file name of listing page `i`: `index.htm`, then `index_i.htm`. -/
def pageName (i : Nat) : Text :=
  let pageNum := if i > 0 then '_' :: (toString i).toList else []
  "index".toList ++ pageNum ++ ".htm".toList

/-- The address `curPageUrl` of listing page `i`. -/
def pageUrl (url : Url) (i : Nat) : Url := Url.resolveName (pageName i) url

/-- The loop of `generateIndex` from page `i`, with `left` iterations to go
before the bound of 99 pages. -/
def pageLoop (w : World) (item : SubSection) (docDir : Text) : Nat → Nat → Async Unit
  | 0, _ => pure ()
  | left + 1, i => do
    sleep
    let curPageRes ← cachedFetch w (pageUrl item.url i) [] true
    if curPageRes.url = notFoundUrl ∨ !curPageRes.ok then pure ()
    else
      (w.listItems curPageRes.body).forM (pushDescriptor w item docDir)
      pageLoop w item docDir left (i + 1)

/-- The directory `docDir` of `generateIndex`. -/
def docDirOf (item : SubSection) : Text :=
  pathJoin [staticDir, item.sec, item.subSec.getD []]

/-- The function `generateIndex`. -/
def generateIndex (w : World) (item : SubSection) : Async Unit :=
  pageLoop w item (docDirOf item) 99 0

/-- The callback of the `forEach` over the sub-section links. -/
def subSectionOf (sectionKey secName : Text) (secUrl : Url) (dom : Anchor) :
    Async SubSection := do
  let href ← attrOrThrow dom.href
  match matchSubSec (trim href) with
  | none => throwJs "cannot read properties of null"
  | some subSec =>
    pure ⟨sectionKey, secName, some subSec, some dom.text,
      Url.resolveName (subSec ++ ['/']) secUrl⟩

/-- The function `getIndex`. Its result is `undefined` (`none`) or the array
`indexes`. -/
def getIndex (w : World) (sectionKey secName : Text) : Async (Option (List Descriptor)) := do
  let secUrl := Url.resolveName (sectionKey ++ ['/']) BASEURL
  let indexPageRes ← cachedFetch w secUrl [] true
  if !indexPageRes.ok then return none
  let subPageRefs := w.subPageRefs indexPageRes.body
  let docListPageUrls ←
    if subPageRefs = [] then pure [(⟨sectionKey, secName, none, none, secUrl⟩ : SubSection)]
    else subPageRefs.mapM (subSectionOf sectionKey secName secUrl)
  modifySt (fun st => { st with indexes := [] })
  promiseAll (docListPageUrls.map (generateIndex w))
  let st ← getSt
  return some st.indexes

/-! ## The driver -/

/-- The table `sections` of `main`. -/
def sections : List (Text × Text) :=
  [("kuaijizhunzeshishi".toList, "企业会计准则".toList),
   ("qykjzzjs".toList, "企业会计准则解释".toList),
   ("qitgd".toList, "其他规定".toList),
   ("srzzzq".toList, "应用案例".toList),
   ("sswd".toList, "实施问答".toList)]

/-- A task of `getIdxTaskQueue`: the spread of `idx` into `push` throws on
`undefined`. -/
def getIdxTask (w : World) (entry : Text × Text) : Async Unit := do
  let idx ← getIndex w entry.1 entry.2
  match idx with
  | none => throwJs "idx is not iterable"
  | some found => modifySt (fun st => { st with utoolsIndex := st.utoolsIndex ++ found })

/-- A task of `getPgTaskQueue`, for the descriptor at position `i`. -/
def getPgTask (w : World) (entry : Nat × Descriptor) : Async Unit := do
  let doc := entry.2
  let _ ← saveHTML w doc.url doc.t (some doc.p) "document".toList
  let p := pathRelative w.cwd "public".toList (pathJoin (splitOn '/' doc.p))
  modifySt (fun st => { st with utoolsIndex := st.utoolsIndex.set entry.1 { doc with p := p } })

/-- The function `main`. -/
def main (w : World) : Async Unit := do
  modifySt (fun st => { st with utoolsIndex := [] })
  promiseAll (sections.map (getIdxTask w))
  let st ← getSt
  promiseAll (((List.range st.utoolsIndex.length).zip st.utoolsIndex).map (getPgTask w))
  let st ← getSt
  modifySt (fun s => { s with indexJson := some st.utoolsIndex })

/-- The state of a first run: empty cache, nothing done. -/
def St.init : St :=
  { cache := fun _ => none, inFlight := [], fetched := [], converted := [], files := [],
    indexes := [], utoolsIndex := [], indexJson := none }

/-! ## Sample environments -/

/-- An environment without network, links or content. -/
def World.empty : World :=
  { network := fun _ _ => none, resolve := fun _ _ => none, subPageRefs := fun _ => [],
    listItems := fun _ => [], qaLinks := fun _ => [], attachLinks := fun _ => [],
    content := fun _ => [], pdfParser := fun _ => .dataError, wordText := fun _ => none,
    mammoth := fun _ => none, cwd := ["srv".toList] }

/-- A locator on the portal, by its path name. -/
def portal (pathname : String) : Url := ⟨baseOrigin, pathname.toList, [], []⟩

/-- The site answers every request with status 200 and its "not found"
page, whose text carries the marker. -/
def notFoundSite : World :=
  { World.empty with
    network := fun u _ => some ⟨200, u.toString, utf8 ("<p>".toList ++ notFoundMarker ++ "</p>".toList)⟩ }

/-- The site answers every request with status 200 and the body `hello`. -/
def helloSite : World :=
  { World.empty with network := fun u _ => some ⟨200, u.toString, utf8 "hello".toList⟩ }

/-- The state of a first run but for one cache entry. -/
def St.withEntry (path : Text) (bytes : Bytes) : St :=
  { St.init with cache := fun p => if p = path then some bytes else none }

/-- The extractor of legacy documents returns `text` for every buffer. -/
def wordSays (text : String) : World :=
  { World.empty with wordText := fun _ => some text.toList }

/-- The PDF parser reports `rawText` for every buffer. -/
def pdfSays (rawText : String) : World :=
  { World.empty with pdfParser := fun _ => .dataReady rawText.toList }

/-- The banner pdf2json writes after page `num`: sixteen dashes on each side
of `Page (num) Break`. -/
def pageBreak (num : Text) : Text :=
  dashes16 ++ "Page (".toList ++ num ++ ") Break".toList ++ dashes16

/-- A page of the raw text after the first: the banner that closes page
`num`, the page number that follows it (the white space `ws` and the digits
`page`, both empty when there is none) and the text up to the next banner. -/
structure PdfPage where
  num : Text
  ws : Text
  page : Text
  text : Text

/-- The raw text of a page. -/
def PdfPage.raw (p : PdfPage) : Text := pageBreak p.num ++ p.ws ++ p.page ++ p.text

/-- The shape of a page: `num` is digits, the page number is white space
followed by digits that the text does not continue, or is absent, the text
then not starting with one, and the text has no run of sixteen dashes. -/
def PdfPage.wellFormed (p : PdfPage) : Prop :=
  p.num ≠ [] ∧ (∀ c ∈ p.num, isDigit c = true) ∧
  (∀ c ∈ p.ws, isSpace c = true) ∧ (∀ c ∈ p.page, isDigit c = true) ∧
  ((p.ws ≠ [] ∧ p.page ≠ [] ∧ ∀ c, p.text.head? = some c → isDigit c = false) ∨
    (p.ws = [] ∧ p.page = [] ∧
      (p.text.takeWhile isSpace = [] ∨ (p.text.dropWhile isSpace).takeWhile isDigit = []))) ∧
  ¬ dashes16 <:+: p.text

/-- What `DLAttachment` makes of the outcome of the converter: the value in
a block with the id `attachment`, `undefined` for a rejection, which its
`catch` handles, and no result while the converter does not settle. -/
def attachmentDoc : Outcome (Option Text) → Outcome (Option (List Element))
  | .ok docXml => .ok (some [⟨"attachment".toList, render docXml⟩])
  | .thrown _ => .ok none
  | .hung => .hung

/-- A small site. Under `/zt/kjzzss/s/u/`: the document `t1.htm` without
links; the document `t2.htm` with the attachment `P1.DOC` and the QA page
`qa.htm`; the document `t6.htm` with the attachment `P2.doc`, a file the
extractor of legacy documents throws on; the document `t7.htm` with the
attachment `notes.txt`; the document `t8.htm` with the attachment `P3.docx`,
a file mammoth rejects. Pages are told apart by their one-byte bodies. -/
def sampleSite : World :=
  { World.empty with
    network := fun u _ =>
      if u = portal "/zt/kjzzss/s/u/t1.htm" then some ⟨200, u.toString, [1]⟩
      else if u = portal "/zt/kjzzss/s/u/t2.htm" then some ⟨200, u.toString, [2]⟩
      else if u = portal "/zt/kjzzss/s/u/qa.htm" then some ⟨200, u.toString, [3]⟩
      else if u = portal "/zt/kjzzss/s/u/P1.DOC" then some ⟨200, u.toString, [4]⟩
      else if u = portal "/zt/kjzzss/s/u/P2.doc" then some ⟨200, u.toString, [5]⟩
      else if u = portal "/zt/kjzzss/s/u/t6.htm" then some ⟨200, u.toString, [6]⟩
      else if u = portal "/zt/kjzzss/s/u/t7.htm" then some ⟨200, u.toString, [7]⟩
      else if u = portal "/zt/kjzzss/s/u/t8.htm" then some ⟨200, u.toString, [8]⟩
      else if u = portal "/zt/kjzzss/s/u/P3.docx" then some ⟨200, u.toString, [9]⟩
      else some ⟨404, u.toString, []⟩
    resolve := fun href base =>
      match href with
      | '.' :: '/' :: name => some (Url.resolveName name base)
      | _ => none
    attachLinks := fun body =>
      if body = [2] then [⟨some " ./P1.DOC ".toList, none, "附件".toList⟩]
      else if body = [6] then [⟨some "./P2.doc".toList, none, "附件".toList⟩]
      else if body = [7] then [⟨some "./notes.txt".toList, none, "附件".toList⟩]
      else if body = [8] then [⟨some "./P3.docx".toList, none, "附件".toList⟩]
      else []
    qaLinks := fun body =>
      if body = [2] then [⟨some "./qa.htm".toList, none, "相关问答".toList⟩] else []
    content := fun body =>
      if body = [1] then ["<h1>one</h1>".toList]
      else if body = [2] then ["<h1>two</h1>".toList]
      else if body = [3] then ["<h1>answers</h1>".toList]
      else if body = [6] then ["<h1>six</h1>".toList]
      else if body = [7] then ["<h1>seven</h1>".toList]
      else if body = [8] then ["<h1>eight</h1>".toList]
      else []
    wordText := fun buffer => if buffer = [4] then some "first\nsecond".toList else none }

/-- What `cachedFetch` answers for a locator, caching enabled: the response
made from its cache entry if there is one, else the answer of the network. -/
def lookup (w : World) (cache : Text → Option Bytes) (url : Url) : Option Response :=
  match cache (cachePath url) with
  | some bytes => some (cachedResponse bytes)
  | none => w.network url []

/-- The descriptor of a list-item link that has a title and an href that
resolves. -/
def descriptorOf (w : World) (item : SubSection) (dom : Anchor) : Option Descriptor :=
  match dom.title, dom.href with
  | some title, some href =>
    match w.resolve (trim href) item.url with
    | some docUrl =>
      some ⟨docUrl, trim title,
        joinWith " > ".toList
          ["企业会计准则".toList, item.secName, item.subSecName.getD [], trim title],
        pathJoin [docDirOf item, basename docUrl.toString]⟩
    | none => none
  | _, _ => none

/-- The values of `f` on a list, when `f` has a value on each element. -/
def collectSome {α β : Type} (f : α → Option β) : List α → Option (List β)
  | [] => some []
  | a :: rest =>
    match f a, collectSome f rest with
    | some b, some bs => some (b :: bs)
    | _, _ => none

/-- The descriptors of the list-item links of a listing page, when every one
of them has a descriptor. -/
def pageDescriptors (w : World) (item : SubSection) (body : Bytes) : Option (List Descriptor) :=
  collectSome (descriptorOf w item) (w.listItems body)

/-- A site of sections without sub-section links. The listing of the section
`qitgd` answers 404. Every other listing, which is also the page `index.htm`
under it, answers 200 and lists one document, and `index_1.htm` answers 404;
under `sswd/qa/` the page `index.htm` is answered with status 200 from the
redirect target `404.htm`. -/
def listingSite : World :=
  { World.empty with
    network := fun u _ =>
      if u.pathname = "/zt/kjzzss/qitgd/".toList then some ⟨404, u.toString, []⟩
      else if u.pathname.getLast? = some '/' then some ⟨200, u.toString, [11]⟩
      else if u.pathname = "/zt/kjzzss/sswd/qa/index.htm".toList then
        some ⟨200, notFoundUrl, [11]⟩
      else if basename u.pathname = "index.htm".toList then some ⟨200, u.toString, [11]⟩
      else some ⟨404, u.toString, []⟩
    resolve := fun href base =>
      match href with
      | '.' :: '/' :: name => some (Url.resolveName name base)
      | _ => none
    listItems := fun body =>
      if body = [11] then [⟨some "./t1.htm".toList, some " Case 1 ".toList, "Case 1".toList⟩]
      else [] }

/-- A site whose listing pages `index.htm` to `index_99.htm` each list one
document, `index_100.htm` being the first to answer 404. -/
def longSite : World :=
  { listingSite with
    network := fun u _ =>
      if basename u.pathname = "index_100.htm".toList then some ⟨404, u.toString, []⟩
      else some ⟨200, u.toString, [11]⟩ }

/-- The listing site with the listing of the section `qitgd` answering 200
as well. -/
def healthySite : World :=
  { listingSite with
    network := fun u options =>
      if u.pathname = "/zt/kjzzss/qitgd/".toList then some ⟨200, u.toString, [11]⟩
      else listingSite.network u options }

/-- The entry of `docListPageUrls` for a section without sub-sections. -/
def wholeSection (sectionKey secName : String) : SubSection :=
  ⟨sectionKey.toList, secName.toList, none, none,
    Url.resolveName (sectionKey.toList ++ ['/']) BASEURL⟩

/-- The state in which `getIndex` calls `generateIndex` for the section
`srzzzq` on a first run: the listing was fetched, its cache write is in
flight. -/
def afterListing : St :=
  (cachedFetch listingSite (Url.resolveName "srzzzq/".toList BASEURL) [] true St.init).2

/-- The entry of `docListPageUrls` for the sub-section `cases` of the
section `srzzzq`. -/
def casesSub : SubSection :=
  ⟨"srzzzq".toList, "应用案例".toList, some "cases".toList, some "收入准则应用案例".toList,
    Url.resolveName "cases/".toList (Url.resolveName "srzzzq/".toList BASEURL)⟩

/-- The entry of `docListPageUrls` for the sub-section `qa` of the section
`sswd`. -/
def qaSub : SubSection :=
  ⟨"sswd".toList, "实施问答".toList, some "qa".toList, some "问答".toList,
    Url.resolveName "qa/".toList (Url.resolveName "sswd/".toList BASEURL)⟩

/-- The page number in the file name of a listing page: the digits after
`index_`, 0 when there is none. -/
def pageNumberOf (name : Text) : Nat :=
  ((name.drop 6).takeWhile isDigit).foldl (fun n c => 10 * n + (c.toNat - 48)) 0

/-- A path segment that is a name: not empty, not `.` or `..`, without
slash. -/
def isName (s : Text) : Prop := s ≠ [] ∧ s ≠ ['.'] ∧ s ≠ ['.', '.'] ∧ '/' ∉ s

/-! ## Theorems -/

/-! ### Lists -/

theorem startsWith_iff {α : Type} [DecidableEq α] (hay needle : List α) :
    startsWith hay needle = true ↔ needle <+: hay := by
  induction needle generalizing hay with
  | nil => simp [startsWith]
  | cons n ns ih =>
    cases hay with
    | nil => simp [startsWith]
    | cons h hs =>
      by_cases hn : h = n
      · subst hn
        simp [startsWith, ih, List.cons_prefix_cons]
      · have hn2 : ¬ n = h := fun e => hn e.symm
        simp [startsWith, hn, hn2, List.cons_prefix_cons]

theorem includes_iff {α : Type} [DecidableEq α] (hay needle : List α) :
    includes hay needle = true ↔ needle <:+: hay := by
  induction hay with
  | nil =>
    rw [includes, startsWith_iff]
    simp [List.prefix_nil, List.infix_nil]
  | cons h hs ih =>
    rw [includes, Bool.or_eq_true, startsWith_iff, ih, List.infix_cons_iff]

/-! ### The cache -/

theorem foldl_writeCache_last (writes : List (Text × Bytes)) (cache : Text → Option Bytes)
    (path : Text) (bytes : Bytes) :
    (writes ++ [(path, bytes)]).foldl writeCache cache path = some bytes := by
  simp [List.foldl_append, writeCache]

theorem cachedFetch_of_hit (w : World) (url : Url) (options : FetchOptions) (st : St)
    (bytes : Bytes) (hit : st.cache (cachePath url) = some bytes) :
    cachedFetch w url options true st = (.ok (cachedResponse bytes), st) := by
  simp [cachedFetch, hit]

theorem cachedFetch_of_miss (w : World) (url : Url) (options : FetchOptions) (st : St)
    (res : Response) (miss : st.cache (cachePath url) = none)
    (net : w.network url options = some res) :
    cachedFetch w url options true st =
      (.ok res, { st with fetched := st.fetched ++ [url],
                          inFlight := st.inFlight ++ [(cachePath url, res.body)] }) := by
  simp [cachedFetch, miss, net]

theorem includes_eq_false {α : Type} [DecidableEq α] (hay needle : List α)
    (h : ¬ needle <:+: hay) : includes hay needle = false := by
  cases hc : includes hay needle with
  | false => rfl
  | true => exact absurd ((includes_iff _ _).1 hc) h

/-- C9. On a cache hit with caching enabled, `cachedFetch` leaves the state as
it was (no network access, no cache write started or made) and fulfils with
the response made from the entry: status 404, not OK, when the not-found
marker occurs anywhere in the bytes, otherwise status 200, OK, with the
bytes of the entry as body. -/
theorem cachedFetch_hit (w : World) (url : Url) (options : FetchOptions) (st : St)
    (bytes : Bytes) (hit : st.cache (cachePath url) = some bytes) :
    ∃ res, cachedFetch w url options true st = (.ok res, st) ∧
      (utf8 notFoundMarker <:+: bytes → res.status = 404 ∧ res.ok = false) ∧
      (¬ utf8 notFoundMarker <:+: bytes →
        res.status = 200 ∧ res.ok = true ∧ res.body = bytes) := by
  refine ⟨cachedResponse bytes, ?_, ?_, ?_⟩
  · simp [cachedFetch, hit]
  · intro h
    have h2 := (includes_iff bytes (utf8 notFoundMarker)).2 h
    simp [cachedResponse, h2, Response.ok]
  · intro h
    have h2 : includes bytes (utf8 notFoundMarker) = false := by
      cases hc : includes bytes (utf8 notFoundMarker) with
      | false => rfl
      | true => exact absurd ((includes_iff _ _).1 hc) h
    simp [cachedResponse, h2, Response.ok]

theorem cachedFetch_hit_witness :
    ∃ res, cachedFetch World.empty (portal "/zt/kjzzss/qitgd/") [] true
        (St.withEntry "cache/zt/kjzzss/qitgd/index.htm".toList [60, 112, 62]) =
        (.ok res, St.withEntry "cache/zt/kjzzss/qitgd/index.htm".toList [60, 112, 62]) ∧
      (utf8 notFoundMarker <:+: [60, 112, 62] → res.status = 404 ∧ res.ok = false) ∧
      (¬ utf8 notFoundMarker <:+: [60, 112, 62] →
        res.status = 200 ∧ res.ok = true ∧ res.body = [60, 112, 62]) :=
  cachedFetch_hit World.empty (portal "/zt/kjzzss/qitgd/") []
    (St.withEntry "cache/zt/kjzzss/qitgd/index.htm".toList [60, 112, 62]) [60, 112, 62]
    (by decide)

/-- C1, as the script has it. From a cache without entry for the locator and
a network that answers, two calls of `cachedFetch` with caching enabled, the
second after the write of the first has landed, make one network access in
all; the second call returns the bytes of the first when these do not carry
the not-found marker, and an empty 404 response when they do. -/
theorem cachedFetch_twice (w : World) (url : Url) (options : FetchOptions) (st : St)
    (res : Response) (miss : st.cache (cachePath url) = none)
    (net : w.network url options = some res) :
    (cachedFetch w url options true st).1 = .ok res ∧
    (cachedFetch w url options true
      (settleWrites (cachedFetch w url options true st).2)).2.fetched = st.fetched ++ [url] ∧
    (¬ utf8 notFoundMarker <:+: res.body →
      (cachedFetch w url options true
        (settleWrites (cachedFetch w url options true st).2)).1 = .ok ⟨200, [], res.body⟩) ∧
    (utf8 notFoundMarker <:+: res.body →
      (cachedFetch w url options true
        (settleWrites (cachedFetch w url options true st).2)).1 = .ok ⟨404, [], []⟩) := by
  have first := cachedFetch_of_miss w url options st res miss net
  rw [first]
  have second := cachedFetch_of_hit w url options
    (settleWrites { st with fetched := st.fetched ++ [url],
                            inFlight := st.inFlight ++ [(cachePath url, res.body)] })
    res.body (foldl_writeCache_last st.inFlight st.cache (cachePath url) res.body)
  rw [second]
  refine ⟨rfl, rfl, ?_, ?_⟩
  · intro h
    simp [cachedResponse, includes_eq_false _ _ h]
  · intro h
    simp [cachedResponse, (includes_iff res.body (utf8 notFoundMarker)).2 h]

theorem cachedFetch_twice_witness :
    (cachedFetch helloSite (portal "/zt/kjzzss/qitgd/") [] true St.init).1 =
      .ok ⟨200, (portal "/zt/kjzzss/qitgd/").toString, utf8 "hello".toList⟩ ∧
    (cachedFetch helloSite (portal "/zt/kjzzss/qitgd/") [] true
      (settleWrites (cachedFetch helloSite (portal "/zt/kjzzss/qitgd/") [] true
        St.init).2)).2.fetched = St.init.fetched ++ [portal "/zt/kjzzss/qitgd/"] ∧
    (¬ utf8 notFoundMarker <:+:
        (⟨200, (portal "/zt/kjzzss/qitgd/").toString, utf8 "hello".toList⟩ : Response).body →
      (cachedFetch helloSite (portal "/zt/kjzzss/qitgd/") [] true
        (settleWrites (cachedFetch helloSite (portal "/zt/kjzzss/qitgd/") [] true
          St.init).2)).1 =
        .ok ⟨200, [], (⟨200, (portal "/zt/kjzzss/qitgd/").toString,
          utf8 "hello".toList⟩ : Response).body⟩) ∧
    (utf8 notFoundMarker <:+:
        (⟨200, (portal "/zt/kjzzss/qitgd/").toString, utf8 "hello".toList⟩ : Response).body →
      (cachedFetch helloSite (portal "/zt/kjzzss/qitgd/") [] true
        (settleWrites (cachedFetch helloSite (portal "/zt/kjzzss/qitgd/") [] true
          St.init).2)).1 = .ok ⟨404, [], []⟩) :=
  cachedFetch_twice helloSite (portal "/zt/kjzzss/qitgd/") [] St.init
    ⟨200, (portal "/zt/kjzzss/qitgd/").toString, utf8 "hello".toList⟩ (by decide) (by decide)

/-- C1 as stated fails. The site answers with its "not found" page: the first
call returns that page, the second, made after the cache write, returns an
empty body with status 404. -/
theorem cachedFetch_twice_not_identical :
    St.init.cache (cachePath (portal "/zt/kjzzss/qitgd/index_5.htm")) = none ∧
    (cachedFetch notFoundSite (portal "/zt/kjzzss/qitgd/index_5.htm") [] true St.init).1 =
      .ok ⟨200, "http://kjs.mof.gov.cn/zt/kjzzss/qitgd/index_5.htm".toList,
        utf8 ("<p>".toList ++ notFoundMarker ++ "</p>".toList)⟩ ∧
    (cachedFetch notFoundSite (portal "/zt/kjzzss/qitgd/index_5.htm") [] true
      (settleWrites (cachedFetch notFoundSite (portal "/zt/kjzzss/qitgd/index_5.htm") [] true
        St.init).2)).1 = .ok ⟨404, [], []⟩ ∧
    utf8 ("<p>".toList ++ notFoundMarker ++ "</p>".toList) ≠ [] := by
  decide

/-! ### Splitting into lines -/

theorem splitOn_ne_nil (sep : Char) (s : Text) : splitOn sep s ≠ [] := by
  cases s with
  | nil => simp [splitOn]
  | cons c cs =>
    rw [splitOn]
    split
    · simp
    · split <;> simp

theorem joinWith_cons_cons (sep x y : Text) (ys : List Text) :
    joinWith sep (x :: y :: ys) = x ++ sep ++ joinWith sep (y :: ys) := by
  simp [joinWith, List.intercalate, List.intersperse]

theorem joinWith_splitOn (sep : Char) (s : Text) : joinWith [sep] (splitOn sep s) = s := by
  induction s with
  | nil => simp [splitOn, joinWith, List.intercalate]
  | cons c cs ih =>
    rw [splitOn]
    split
    · rename_i h
      cases hs : splitOn sep cs with
      | nil => exact absurd hs (splitOn_ne_nil sep cs)
      | cons p ps =>
        rw [joinWith_cons_cons, ← hs, ih, h]
        rfl
    · cases hs : splitOn sep cs with
      | nil => exact absurd hs (splitOn_ne_nil sep cs)
      | cons p ps =>
        rw [hs] at ih
        cases ps with
        | nil =>
          simp only [joinWith, List.intercalate, List.intersperse, List.flatten, List.append_nil] at ih ⊢
          rw [ih]
        | cons q qs =>
          rw [joinWith_cons_cons] at ih ⊢
          simp only [List.cons_append, List.append_assoc] at ih ⊢
          rw [ih]

theorem not_mem_of_mem_splitOn (sep : Char) (s : Text) :
    ∀ line ∈ splitOn sep s, sep ∉ line := by
  induction s with
  | nil => simp [splitOn]
  | cons c cs ih =>
    rw [splitOn]
    split
    · intro line hl
      rcases List.mem_cons.1 hl with h | h
      · simp [h]
      · exact ih line h
    · rename_i hne
      cases hs : splitOn sep cs with
      | nil => exact absurd hs (splitOn_ne_nil sep cs)
      | cons p ps =>
        rw [hs] at ih
        intro line hl
        rcases List.mem_cons.1 hl with h | h
        · subst h
          intro hmem
          rcases List.mem_cons.1 hmem with h2 | h2
          · exact hne h2.symm
          · exact ih p (List.mem_cons_self _ _) h2
        · exact ih line (List.mem_cons_of_mem _ h)

theorem joinWith_nil (parts : List Text) : joinWith [] parts = parts.flatten := by
  induction parts with
  | nil => rfl
  | cons x xs ih =>
    cases xs with
    | nil => simp [joinWith, List.intercalate, List.intersperse]
    | cons y ys =>
      rw [joinWith_cons_cons, ih]
      simp

/-- C8, as the script has it. When the extractor returns `text`, `parseDoc`
returns the paragraphs `<p>line</p>` of all the lines of `text`, in order
and without separator, the lines being the pieces of `text` between its
newlines: an empty line gives the paragraph `<p></p>`. -/
theorem parseDoc_paragraphs (w : World) (buffer : Bytes) (text : Text)
    (extracted : w.wordText buffer = some text) :
    ∃ lines : List Text, lines ≠ [] ∧ joinWith ['\n'] lines = text ∧
      (∀ line ∈ lines, '\n' ∉ line) ∧
      parseDoc w buffer =
        .ok (some (lines.flatMap (fun line => "<p>".toList ++ line ++ "</p>".toList))) := by
  refine ⟨splitOn '\n' text, splitOn_ne_nil _ _, joinWith_splitOn _ _,
    not_mem_of_mem_splitOn _ _, ?_⟩
  simp [parseDoc, extracted, parseDocText, joinWith_nil, List.flatMap]

theorem parseDoc_paragraphs_witness :
    ∃ lines : List Text, lines ≠ [] ∧ joinWith ['\n'] lines = "a\n\nb".toList ∧
      (∀ line ∈ lines, '\n' ∉ line) ∧
      parseDoc (wordSays "a\n\nb") [1, 2] =
        .ok (some (lines.flatMap (fun line => "<p>".toList ++ line ++ "</p>".toList))) :=
  parseDoc_paragraphs (wordSays "a\n\nb") [1, 2] "a\n\nb".toList rfl

/-- C8 as stated fails. For the text `a`, empty line, `b`, `parseDoc` returns
three paragraphs, the middle one empty, and not the two paragraphs of the
non-empty lines. -/
theorem parseDoc_keeps_empty_lines :
    parseDoc (wordSays "a\n\nb") [1, 2] = .ok (some "<p>a</p><p></p><p>b</p>".toList) ∧
    parseDoc (wordSays "a\n\nb") [1, 2] ≠ .ok (some "<p>a</p><p>b</p>".toList) := by
  decide

/-! ### The banner pattern -/

theorem stripPrefix_append (pre rest : Text) : stripPrefix pre (pre ++ rest) = some rest := by
  induction pre with
  | nil => simp [stripPrefix]
  | cons c cs ih => simp [stripPrefix, ih]

theorem eq_append_of_stripPrefix (pre s rest : Text) (h : stripPrefix pre s = some rest) :
    s = pre ++ rest := by
  induction pre generalizing s with
  | nil =>
    simp only [stripPrefix, Option.some.injEq] at h
    simp [h]
  | cons p ps ih =>
    cases s with
    | nil => simp [stripPrefix] at h
    | cons c cs =>
      by_cases hpc : p = c
      · subst hpc
        simp only [stripPrefix, if_true] at h
        rw [ih cs h]
        rfl
      · simp [stripPrefix, hpc] at h

theorem takeWhile_run (p : Char → Bool) (run rest : Text) (hrun : ∀ c ∈ run, p c = true)
    (hrest : ∀ c, rest.head? = some c → p c = false) :
    (run ++ rest).takeWhile p = run ∧ (run ++ rest).dropWhile p = rest := by
  have hstop : rest.takeWhile p = [] ∧ rest.dropWhile p = rest := by
    cases rest with
    | nil => simp
    | cons c cs =>
      have := hrest c rfl
      simp [List.takeWhile_cons, List.dropWhile_cons, this]
  rw [List.takeWhile_append_of_pos hrun, List.dropWhile_append_of_pos hrun]
  simp [hstop.1, hstop.2]

theorem matchBanner_pageBreak (num rest : Text) (hne : num ≠ [])
    (hnum : ∀ c ∈ num, isDigit c = true) :
    matchBanner (pageBreak num ++ rest) =
      some (if rest.takeWhile isSpace ≠ [] ∧ (rest.dropWhile isSpace).takeWhile isDigit ≠ []
        then (rest.dropWhile isSpace).dropWhile isDigit else rest) := by
  have hshape : pageBreak num ++ rest =
      dashes16 ++ ("Page (".toList ++ (num ++ (") Break".toList ++ (dashes16 ++ rest)))) := by
    simp [pageBreak, List.append_assoc]
  have hspan := takeWhile_run isDigit num (") Break".toList ++ (dashes16 ++ rest)) hnum
    (by intro c hc; simp at hc; subst hc; decide)
  rw [hshape]
  unfold matchBanner
  simp only [stripPrefix_append, Option.bind_eq_bind, Option.some_bind, hspan.1, hspan.2]
  simp only [hne, if_false]
  split <;> rename_i hc <;> simp [hc]

theorem removeBannersFrom_skip (skipped rest : Text) :
    removeBannersFrom skipped.length (skipped ++ rest) = removeBannersFrom 0 rest := by
  induction skipped with
  | nil => rfl
  | cons c cs ih => simpa [removeBannersFrom] using ih

theorem removeBannersFrom_match (matched rest : Text) (hne : matched ≠ [])
    (h : matchBanner (matched ++ rest) = some rest) :
    removeBannersFrom 0 (matched ++ rest) = removeBannersFrom 0 rest := by
  cases matched with
  | nil => exact absurd rfl hne
  | cons c cs =>
    have hm : matchBanner (c :: (cs ++ rest)) = some rest := h
    have hlen : (c :: (cs ++ rest)).length - rest.length - 1 = cs.length := by
      simp; omega
    show removeBannersFrom 0 (c :: (cs ++ rest)) = _
    rw [removeBannersFrom, hm]
    simp only [hlen]
    exact removeBannersFrom_skip cs rest

theorem matchBanner_shape (s rest : Text) (h : matchBanner s = some rest) :
    ∃ tail, s = dashes16 ++ ('P' :: tail) := by
  unfold matchBanner at h
  cases h1 : stripPrefix dashes16 s with
  | none => simp [h1] at h
  | some s1 =>
    cases h2 : stripPrefix ['P', 'a', 'g', 'e', ' ', '('] s1 with
    | none => simp [h1, h2] at h
    | some s2 =>
      refine ⟨"age (".toList ++ s2, ?_⟩
      rw [eq_append_of_stripPrefix _ _ _ h1, eq_append_of_stripPrefix _ _ _ h2]
      rfl

theorem matchBanner_none_before (c : Char) (pre tail : Text)
    (hpre : ¬ dashes16 <:+: c :: pre) :
    matchBanner ((c :: pre) ++ (dashes16 ++ tail)) = none := by
  cases hm : matchBanner ((c :: pre) ++ (dashes16 ++ tail)) with
  | none => rfl
  | some rest =>
    exfalso
    obtain ⟨t, ht⟩ := matchBanner_shape _ _ hm
    by_cases hlen : 16 ≤ (c :: pre).length
    · apply hpre
      have hp1 : dashes16 <+: (c :: pre) ++ (dashes16 ++ tail) := by
        rw [ht]; exact List.prefix_append _ _
      have hp2 : (c :: pre) <+: (c :: pre) ++ (dashes16 ++ tail) := List.prefix_append _ _
      have : dashes16 <+: c :: pre :=
        List.prefix_of_prefix_length_le hp1 hp2 (by simpa [dashes16] using hlen)
      exact this.isInfix
    · have hk : (c :: pre).length ≤ 16 := by omega
      have hk0 : 0 < (c :: pre).length := by simp
      have e1 : ((c :: pre) ++ (dashes16 ++ tail))[16]? = some '-' := by
        rw [List.getElem?_append_right hk,
          List.getElem?_append_left (by simp only [dashes16, List.length_replicate]; omega)]
        simp only [dashes16, List.getElem?_replicate]
        rw [if_pos (by omega)]
      have e2 : (dashes16 ++ ('P' :: t))[16]? = some 'P' := by
        rw [List.getElem?_append_right (by simp [dashes16])]
        simp [dashes16]
      rw [ht, e2] at e1
      exact absurd e1 (by decide)

theorem removeBannersFrom_before (pre tail : Text) (hpre : ¬ dashes16 <:+: pre) :
    removeBannersFrom 0 (pre ++ (dashes16 ++ tail)) =
      pre ++ removeBannersFrom 0 (dashes16 ++ tail) := by
  induction pre with
  | nil => rfl
  | cons c cs ih =>
    have hcs : ¬ dashes16 <:+: cs := fun h => hpre (h.trans (List.suffix_cons c cs).isInfix)
    show removeBannersFrom 0 (c :: (cs ++ (dashes16 ++ tail))) = _
    rw [removeBannersFrom]
    have hnone := matchBanner_none_before c cs tail hpre
    simp only [List.cons_append] at hnone
    rw [hnone, ih hcs]
    rfl

theorem removeBanners_pageBreak (pre num ws page post : Text)
    (hpre : ¬ dashes16 <:+: pre)
    (hnum : num ≠ [] ∧ ∀ c ∈ num, isDigit c = true)
    (hws : ∀ c ∈ ws, isSpace c = true) (hpage : ∀ c ∈ page, isDigit c = true)
    (hopt : (ws ≠ [] ∧ page ≠ [] ∧ ∀ c, post.head? = some c → isDigit c = false) ∨
      (ws = [] ∧ page = [] ∧
        (post.takeWhile isSpace = [] ∨ (post.dropWhile isSpace).takeWhile isDigit = []))) :
    removeBanners (pre ++ pageBreak num ++ ws ++ page ++ post) = pre ++ removeBanners post := by
  have hmatch : matchBanner ((pageBreak num ++ ws ++ page) ++ post) = some post := by
    rw [show (pageBreak num ++ ws ++ page) ++ post = pageBreak num ++ (ws ++ (page ++ post)) by
      simp [List.append_assoc]]
    rw [matchBanner_pageBreak num _ hnum.1 hnum.2]
    rcases hopt with ⟨hw, hp, hpost⟩ | ⟨hw, hp, hpost⟩
    · have hdig : ∀ c, (page ++ post).head? = some c → isSpace c = false := by
        intro c hc
        cases page with
        | nil => exact absurd rfl hp
        | cons d ds =>
          simp at hc
          subst hc
          have := hpage d (List.mem_cons_self _ _)
          revert this
          simp only [isDigit, isSpace]
          intro h
          simp at h
          simp
          omega
      have h1 := takeWhile_run isSpace ws (page ++ post) hws hdig
      have h2 := takeWhile_run isDigit page post hpage hpost
      simp [h1.1, h1.2, h2.1, h2.2, hw, hp]
    · subst hw; subst hp
      rcases hpost with h | h <;> simp [h]
  have hne : pageBreak num ++ ws ++ page ≠ [] := by simp [pageBreak, dashes16]
  have hmid := removeBannersFrom_match _ _ hne hmatch
  have hform : pre ++ pageBreak num ++ ws ++ page ++ post =
      pre ++ (dashes16 ++ ("Page (".toList ++ num ++ ") Break".toList ++ dashes16 ++ ws ++ page ++
        post)) := by
    simp [pageBreak, List.append_assoc]
  have hform2 : (pageBreak num ++ ws ++ page) ++ post =
      dashes16 ++ ("Page (".toList ++ num ++ ") Break".toList ++ dashes16 ++ ws ++ page ++
        post) := by
    simp [pageBreak, List.append_assoc]
  unfold removeBanners
  rw [hform, removeBannersFrom_before pre _ hpre, ← hform2, hmid]

/-! ### Sequencing -/

theorem bind_of_ok {α β : Type} (m : Async α) (f : α → Async β) (st st1 : St) (a : α)
    (h : m st = (.ok a, st1)) : (m >>= f) st = f a st1 := by
  show Async.bind m f st = _
  simp [Async.bind, h]

theorem bind_of_thrown {α β : Type} (m : Async α) (f : α → Async β) (st st1 : St) (e : String)
    (h : m st = (.thrown e, st1)) : (m >>= f) st = (.thrown e, st1) := by
  show Async.bind m f st = _
  simp [Async.bind, h]

theorem bind_of_hung {α β : Type} (m : Async α) (f : α → Async β) (st st1 : St)
    (h : m st = (.hung, st1)) : (m >>= f) st = (.hung, st1) := by
  show Async.bind m f st = _
  simp [Async.bind, h]

/-! ### Attachments -/

theorem DLAttachment_supported (w : World) (url : Url) (st st1 : St) (res : Response)
    (parser : World → Bytes → Outcome (Option Text))
    (hparser : parsers (toLowerCase (extname url.toString)) = some parser)
    (hfetch : cachedFetch w url [] true st = (.ok res, st1)) :
    DLAttachment w url st =
      (attachmentDoc (parser w res.body),
        { st1 with converted := st1.converted ++ [toLowerCase (extname url.toString)] }) := by
  unfold DLAttachment
  simp only [hparser, catchWith]
  rw [bind_of_ok _ _ st st1 res hfetch]
  cases hp : parser w res.body <;>
    simp [hp, attachmentDoc, modifySt, settled, bind, Async.bind, pure]

/-- C10. The lower-cased extension of the attachment address selects the
converter: for `.pdf`, `.doc` and `.docx`, whatever the letter case in the
address, the attachment is fetched and `parsePdf`, `parseDoc` or `parseDocx`
is run on its bytes, the value going into the block `attachment`; for any
other extension, none included, the result is the empty document and the
state is as before: nothing fetched, no converter invoked. -/
theorem DLAttachment_dispatch (w : World) (url : Url) (st : St) :
    (∀ res st1, cachedFetch w url [] true st = (.ok res, st1) →
      (toLowerCase (extname url.toString) = ".pdf".toList →
        DLAttachment w url st = (attachmentDoc (parsePdf w res.body),
          { st1 with converted := st1.converted ++ [".pdf".toList] })) ∧
      (toLowerCase (extname url.toString) = ".doc".toList →
        DLAttachment w url st = (attachmentDoc (parseDoc w res.body),
          { st1 with converted := st1.converted ++ [".doc".toList] })) ∧
      (toLowerCase (extname url.toString) = ".docx".toList →
        DLAttachment w url st = (attachmentDoc (parseDocx w res.body),
          { st1 with converted := st1.converted ++ [".docx".toList] }))) ∧
    (toLowerCase (extname url.toString) ≠ ".pdf".toList →
      toLowerCase (extname url.toString) ≠ ".doc".toList →
      toLowerCase (extname url.toString) ≠ ".docx".toList →
      DLAttachment w url st = (.ok (some []), st)) := by
  refine ⟨fun res st1 hfetch => ⟨fun h => ?_, fun h => ?_, fun h => ?_⟩, fun h1 h2 h3 => ?_⟩
  · have := DLAttachment_supported w url st st1 res parsePdf (by rw [h]; rfl) hfetch
    rw [this, h]
  · have := DLAttachment_supported w url st st1 res parseDoc (by rw [h]; rfl) hfetch
    rw [this, h]
  · have := DLAttachment_supported w url st st1 res parseDocx (by rw [h]; rfl) hfetch
    rw [this, h]
  · unfold DLAttachment
    simp only [parsers, h1, h2, h3, if_false]
    rfl

theorem DLAttachment_dispatch_witness :
    DLAttachment sampleSite (portal "/zt/kjzzss/s/u/P1.DOC") St.init =
      (attachmentDoc (parseDoc sampleSite [4]),
        { (cachedFetch sampleSite (portal "/zt/kjzzss/s/u/P1.DOC") [] true St.init).2 with
          converted :=
            (cachedFetch sampleSite (portal "/zt/kjzzss/s/u/P1.DOC") [] true St.init).2.converted
              ++ [".doc".toList] }) ∧
    DLAttachment sampleSite (portal "/zt/kjzzss/s/u/notes.txt") St.init =
      (.ok (some []), St.init) :=
  ⟨((DLAttachment_dispatch sampleSite (portal "/zt/kjzzss/s/u/P1.DOC") St.init).1
      ⟨200, (portal "/zt/kjzzss/s/u/P1.DOC").toString, [4]⟩
      (cachedFetch sampleSite (portal "/zt/kjzzss/s/u/P1.DOC") [] true St.init).2
      rfl).2.1 (by decide),
   (DLAttachment_dispatch sampleSite (portal "/zt/kjzzss/s/u/notes.txt") St.init).2
      (by decide) (by decide) (by decide)⟩

theorem DLAttachment_doc_output :
    (DLAttachment sampleSite (portal "/zt/kjzzss/s/u/P1.DOC") St.init).1 =
      .ok (some [⟨"attachment".toList, "<p>first</p><p>second</p>".toList⟩]) ∧
    (DLAttachment sampleSite (portal "/zt/kjzzss/s/u/P1.DOC") St.init).2.converted =
      [".doc".toList] ∧
    (DLAttachment sampleSite (portal "/zt/kjzzss/s/u/P1.DOC") St.init).2.fetched =
      [portal "/zt/kjzzss/s/u/P1.DOC"] := by
  decide

/-! ### The banner pattern, page by page -/

theorem removeBannersFrom_no_run (text : Text) (h : ¬ dashes16 <:+: text) :
    removeBannersFrom 0 text = text := by
  induction text with
  | nil => rfl
  | cons c cs ih =>
    have hcs : ¬ dashes16 <:+: cs := fun e => h (e.trans (List.suffix_cons c cs).isInfix)
    have hnone : matchBanner (c :: cs) = none := by
      cases hm : matchBanner (c :: cs) with
      | none => rfl
      | some rest =>
        obtain ⟨tail, ht⟩ := matchBanner_shape _ _ hm
        exact absurd (ht ▸ (List.prefix_append dashes16 ('P' :: tail)).isInfix) h
    rw [removeBannersFrom, hnone, ih hcs]

theorem takeWhile_append_stop (p : Char → Bool) (text rest : Text)
    (hrest : ∀ c, rest.head? = some c → p c = false) :
    (text ++ rest).takeWhile p = text.takeWhile p ∧
    (text ++ rest).dropWhile p = text.dropWhile p ++ rest := by
  induction text with
  | nil =>
    cases rest with
    | nil => simp
    | cons c cs =>
      have := hrest c rfl
      simp [List.takeWhile_cons, List.dropWhile_cons, this]
  | cons c cs ih =>
    cases hc : p c <;> simp [List.takeWhile_cons, List.dropWhile_cons, hc, ih.1, ih.2]

theorem head_flatMap_raw (pages : List PdfPage) :
    ∀ c, (pages.flatMap PdfPage.raw).head? = some c → c = '-' := by
  intro c hc
  cases pages with
  | nil => simp at hc
  | cons p ps =>
    have : (p :: ps).flatMap PdfPage.raw =
        '-' :: (List.replicate 15 '-' ++ "Page (".toList ++ p.num ++ ") Break".toList ++
          dashes16 ++ p.ws ++ p.page ++ p.text ++ ps.flatMap PdfPage.raw) := by
      simp [List.flatMap, PdfPage.raw, pageBreak, dashes16, List.replicate]
    rw [this] at hc
    simp at hc
    exact hc.symm

theorem removeBanners_pages (pages : List PdfPage) :
    ∀ pre : Text, ¬ dashes16 <:+: pre → (∀ p ∈ pages, p.wellFormed) →
      removeBanners (pre ++ pages.flatMap PdfPage.raw) =
        pre ++ pages.flatMap (fun p => p.text) := by
  induction pages with
  | nil =>
    intro pre hpre _
    simp only [List.flatMap_nil, List.append_nil]
    exact removeBannersFrom_no_run pre hpre
  | cons p ps ih =>
    intro pre hpre hall
    obtain ⟨hn1, hn2, hws, hpage, hopt, htext⟩ := hall p (List.mem_cons_self _ _)
    have hrest := head_flatMap_raw ps
    have hsp : ∀ c, (ps.flatMap PdfPage.raw).head? = some c → isSpace c = false := by
      intro c hc; rw [hrest c hc]; decide
    have hdg : ∀ c, (ps.flatMap PdfPage.raw).head? = some c → isDigit c = false := by
      intro c hc; rw [hrest c hc]; decide
    have hopt2 : (p.ws ≠ [] ∧ p.page ≠ [] ∧
          ∀ c, (p.text ++ ps.flatMap PdfPage.raw).head? = some c → isDigit c = false) ∨
        (p.ws = [] ∧ p.page = [] ∧
          ((p.text ++ ps.flatMap PdfPage.raw).takeWhile isSpace = [] ∨
            ((p.text ++ ps.flatMap PdfPage.raw).dropWhile isSpace).takeWhile isDigit = [])) := by
      rcases hopt with ⟨h1, h2, h3⟩ | ⟨h1, h2, h3⟩
      · refine Or.inl ⟨h1, h2, ?_⟩
        intro c hc
        cases ht : p.text with
        | nil =>
          rw [ht] at hc
          exact hdg c hc
        | cons d ds =>
          rw [ht] at hc h3
          exact h3 c hc
      · refine Or.inr ⟨h1, h2, ?_⟩
        have e1 := takeWhile_append_stop isSpace p.text _ hsp
        rw [e1.1, e1.2, (takeWhile_append_stop isDigit (p.text.dropWhile isSpace) _ hdg).1]
        exact h3
    have hshape : pre ++ (p :: ps).flatMap PdfPage.raw =
        pre ++ pageBreak p.num ++ p.ws ++ p.page ++ (p.text ++ ps.flatMap PdfPage.raw) := by
      simp [List.flatMap, PdfPage.raw, List.append_assoc]
    rw [hshape, removeBanners_pageBreak pre p.num p.ws p.page _ hpre ⟨hn1, hn2⟩ hws hpage hopt2,
      ih p.text htext (fun q hq => hall q (List.mem_cons_of_mem _ hq))]
    simp [List.flatMap]

/-- C6, as the script has it. A raw text is a text `pre` followed by pages,
each the banner pdf2json writes (sixteen dashes, `Page (N) Break`, sixteen
dashes), an optional page number (white space, then digits) and a text that
does not continue the number; neither `pre` nor the text of a page has a run
of sixteen dashes. Then every banner and every page number is removed, a
leading `1` of what is left is stripped, and only then is the text split
into lines. And whatever the raw text is, a `1` at its very start is
stripped before the split. -/
theorem parsePdf_cleanup (w : World) (buffer : Bytes) :
    (∀ (pre : Text) (pages : List PdfPage),
      w.pdfParser buffer = .dataReady (pre ++ pages.flatMap PdfPage.raw) →
      ¬ dashes16 <:+: pre → (∀ p ∈ pages, p.wellFormed) →
      parsePdf w buffer =
        .ok (some (pdfParagraphs (stripLeadingOne (pre ++ pages.flatMap (fun p => p.text)))))) ∧
    (∀ rest : Text, w.pdfParser buffer = .dataReady ('1' :: rest) →
      parsePdf w buffer = .ok (some (pdfParagraphs (removeBanners rest)))) := by
  constructor
  · intro pre pages ready hpre hpages
    simp only [parsePdf, ready, parsePdfText]
    rw [removeBanners_pages pages pre hpre hpages]
  · intro rest ready
    simp only [parsePdf, ready, parsePdfText]
    have hone : matchBanner ('1' :: rest) = none := by
      cases hm : matchBanner ('1' :: rest) with
      | none => rfl
      | some r =>
        obtain ⟨tail, ht⟩ := matchBanner_shape _ _ hm
        simp [dashes16, List.replicate] at ht
    have : removeBanners ('1' :: rest) = '1' :: removeBanners rest := by
      unfold removeBanners
      rw [removeBannersFrom, hone]
    rw [this]
    rfl

theorem parsePdf_cleanup_witness :
    parsePdf (pdfSays ("1Title\n----------------Page (0) Break----------------    2\nNext" ++
        "----------------Page (1) Break----------------\r\n")) [37, 80, 68, 70] =
      .ok (some "<p>Title</p>\n<p></p>\n<p>Next</p>\n<p></p>".toList) ∧
    parsePdf (pdfSays "1 no banner at all") [37, 80, 68, 70] =
      .ok (some "<p>no banner at all</p>".toList) :=
  ⟨(parsePdf_cleanup
      (pdfSays ("1Title\n----------------Page (0) Break----------------    2\nNext" ++
        "----------------Page (1) Break----------------\r\n")) [37, 80, 68, 70]).1
      "1Title\n".toList
      [⟨"0".toList, "    ".toList, "2".toList, "\nNext".toList⟩,
       ⟨"1".toList, [], [], "\r\n".toList⟩]
      (by decide) (by rw [← includes_iff]; decide)
      (by
        intro p hp
        simp only [List.mem_cons, List.mem_singleton, List.not_mem_nil, or_false] at hp
        rcases hp with rfl | rfl
        · exact ⟨by decide, by decide, by decide, by decide, by decide,
            by rw [← includes_iff]; decide⟩
        · exact ⟨by decide, by decide, by decide, by decide, by decide,
            by rw [← includes_iff]; decide⟩),
   (parsePdf_cleanup (pdfSays "1 no banner at all") [37, 80, 68, 70]).2
      " no banner at all".toList (by decide)⟩

/-- C6 as stated fails. The text of the example, a banner with four dashes on
each side and the page number 12, comes out whole, as one paragraph. And a
banner of sixteen dashes that follows `Break-` is not removed entirely: the
match that starts sixteen dashes earlier takes fifteen of its dashes. -/
theorem parsePdf_keeps_short_banner :
    parsePdf (pdfSays "----Page (3) Break----    12") [37, 80, 68, 70] =
      .ok (some "<p>----Page (3) Break----    12</p>".toList) ∧
    parsePdf (pdfSays ("----------------Page (1) Break-" ++
        "----------------Page (2) Break----------------")) [37, 80, 68, 70] =
      .ok (some "<p>-Page (2) Break----------------</p>".toList) := by
  decide

/-! ### Page assembly -/

theorem filter_tagged (tag : Text) (blocks : List Text) :
    (blocks.map (fun m => (⟨tag, m⟩ : Element))).filter (fun e => e.id = tag) =
      blocks.map (fun m => (⟨tag, m⟩ : Element)) := by
  induction blocks with
  | nil => rfl
  | cons b bs ih => simp [List.filter_cons]

theorem saveHTMLBody_QA (self : Url → Text → Option Text → Text → Async (Option (List Element)))
    (w : World) (url : Url) (name : Text) (st st1 : St) (res : Response)
    (hfetch : cachedFetch w url [] true (settleWrites st) = (.ok res, st1))
    (hok : res.ok = true) :
    saveHTMLBody self w url name none "QA".toList st =
      (.ok (some ((w.content res.body).map (fun m => (⟨"QA".toList, m⟩ : Element)))), st1) := by
  unfold saveHTMLBody
  rw [bind_of_ok _ _ st (settleWrites st) () rfl, bind_of_ok _ _ _ st1 res hfetch]
  have hqa : ¬ ("QA".toList = "document".toList) := by decide
  simp only [hok, hqa, false_and, if_false, Bool.not_true, Bool.false_eq_true, truthyPath]
  rw [filter_tagged]
  rfl

/-- The function `saveHTML` satisfies the recursive equation of the script:
it is its body, the recursive call being `saveHTML` itself. -/
theorem saveHTML_unfold (w : World) : saveHTML w = saveHTMLBody (saveHTML w) w := by
  have hqa : ¬ ("QA".toList = "document".toList) := by decide
  have hself : ∀ (self1 self2 : Url → Text → Option Text → Text → Async (Option (List Element)))
      (url : Url) (name : Text) (path : Option Text),
      saveHTMLBody self1 w url name path "QA".toList =
        saveHTMLBody self2 w url name path "QA".toList := by
    intro self1 self2 url name path
    unfold saveHTMLBody
    simp only [hqa, false_and, if_false]
  have hbody : ∀ (self1 self2 : Url → Text → Option Text → Text → Async (Option (List Element))),
      (∀ url name path, self1 url name path "QA".toList = self2 url name path "QA".toList) →
      saveHTMLBody self1 w = saveHTMLBody self2 w := by
    intro self1 self2 h
    funext url name path htmlType
    unfold saveHTMLBody
    simp only [h]
  show saveHTMLBody (saveHTMLBody (saveHTMLFuel w 0) w) w =
    saveHTMLBody (saveHTMLBody (saveHTMLBody (saveHTMLFuel w 0) w) w) w
  exact hbody _ _ (fun url name path => hself _ _ url name path)

/-- C7. For a document page fetched OK and written to `path`: with an
attachment link and a QA link, the attachment converted and the QA page
fetched OK, the body of the page written holds the main content (id
`document`), then the attachment block (id `attachment`), then the content
of the QA page (id `QA`); with neither link it holds the main content
alone. Each page is fetched after the second of `sleep`, in which the cache
writes in flight land. -/
theorem saveHTML_composite (w : World) (docUrl : Url) (docName path : Text) (st st1 : St)
    (res : Response) (hpath : path ≠ [])
    (hfetch : cachedFetch w docUrl [] true (settleWrites st) = (.ok res, st1))
    (hok : res.ok = true) :
    (∀ (a q : Anchor) (as qs : List Anchor) (ha hq docXml : Text) (attachUrl qaUrl : Url)
        (st2 st3 : St) (qres : Response),
      w.attachLinks res.body = a :: as → a.href = some ha →
      w.resolve (trim ha) docUrl = some attachUrl →
      DLAttachment w attachUrl st1 = (.ok (some [⟨"attachment".toList, docXml⟩]), st2) →
      w.qaLinks res.body = q :: qs → q.href = some hq →
      w.resolve (trim hq) docUrl = some qaUrl →
      cachedFetch w qaUrl [] true (settleWrites st2) = (.ok qres, st3) → qres.ok = true →
      saveHTML w docUrl docName (some path) "document".toList st =
        (.ok none, { st3 with files := st3.files ++ [(path,
          ⟨[stylesheetLink (cssPathOf w.cwd path)],
            (w.content res.body).map (fun m => (⟨"document".toList, m⟩ : Element)) ++
            [⟨"attachment".toList, docXml⟩] ++
            (w.content qres.body).map (fun m => (⟨"QA".toList, m⟩ : Element))⟩)] })) ∧
    (w.attachLinks res.body = [] → w.qaLinks res.body = [] →
      saveHTML w docUrl docName (some path) "document".toList st =
        (.ok none, { st1 with files := st1.files ++ [(path,
          ⟨[stylesheetLink (cssPathOf w.cwd path)],
            (w.content res.body).map (fun m => (⟨"document".toList, m⟩ : Element))⟩)] })) := by
  have htruthy : truthyPath (some path) = some path := by
    cases path with
    | nil => exact absurd rfl hpath
    | cons c cs => rfl
  constructor
  · intro a q as qs ha hq docXml attachUrl qaUrl st2 st3 qres hatt hah hares hdl hqa hqh hqres
      hqfetch hqok
    have hq2 : ∀ name, saveHTMLFuel w 1 qaUrl name none "QA".toList st2 =
        (.ok (some ((w.content qres.body).map (fun m => (⟨"QA".toList, m⟩ : Element)))), st3) :=
      fun name => saveHTMLBody_QA (saveHTMLFuel w 0) w qaUrl name st2 st3 qres hqfetch hqok
    show saveHTMLBody (saveHTMLFuel w 1) w docUrl docName (some path) "document".toList st = _
    unfold saveHTMLBody
    rw [bind_of_ok _ _ st (settleWrites st) () rfl, bind_of_ok _ _ _ st1 res hfetch]
    simp only [hok, hatt, hqa, htruthy, List.head?_cons, Option.some_bind, hah, hqh, attrOrThrow,
      newURL, hares, hqres, Bool.not_true, Bool.false_eq_true, if_false, true_and, ne_eq,
      not_false_eq_true, if_true, reduceCtorEq, bind, Async.bind, pure, hdl, hq2, modifySt]
    simp [List.filter_cons]
  · intro hatt hqa
    show saveHTMLBody (saveHTMLFuel w 1) w docUrl docName (some path) "document".toList st = _
    unfold saveHTMLBody
    rw [bind_of_ok _ _ st (settleWrites st) () rfl, bind_of_ok _ _ _ st1 res hfetch]
    simp only [hok, hatt, hqa, htruthy, Bool.not_true, Bool.false_eq_true, if_false, ne_eq,
      not_true_eq_false, and_false]
    simp [bind, Async.bind, pure, modifySt]

theorem saveHTML_composite_witness :
    (saveHTML sampleSite (portal "/zt/kjzzss/s/u/t2.htm") "two".toList
        (some "public/static/s/u/t2.htm".toList) "document".toList St.init).2.files =
      [("public/static/s/u/t2.htm".toList,
        ⟨[stylesheetLink (cssPathOf sampleSite.cwd "public/static/s/u/t2.htm".toList)],
          [⟨"document".toList, "<h1>two</h1>".toList⟩,
           ⟨"attachment".toList, "<p>first</p><p>second</p>".toList⟩,
           ⟨"QA".toList, "<h1>answers</h1>".toList⟩]⟩)] ∧
    (saveHTML sampleSite (portal "/zt/kjzzss/s/u/t1.htm") "one".toList
        (some "public/static/s/u/t1.htm".toList) "document".toList St.init).2.files =
      [("public/static/s/u/t1.htm".toList,
        ⟨[stylesheetLink (cssPathOf sampleSite.cwd "public/static/s/u/t1.htm".toList)],
          [⟨"document".toList, "<h1>one</h1>".toList⟩]⟩)] :=
  ⟨congrArg (fun r => r.2.files)
      ((saveHTML_composite sampleSite (portal "/zt/kjzzss/s/u/t2.htm") "two".toList
        "public/static/s/u/t2.htm".toList St.init
        (cachedFetch sampleSite (portal "/zt/kjzzss/s/u/t2.htm") [] true
          (settleWrites St.init)).2
        ⟨200, (portal "/zt/kjzzss/s/u/t2.htm").toString, [2]⟩ (by decide) rfl rfl).1
        ⟨some " ./P1.DOC ".toList, none, "附件".toList⟩
        ⟨some "./qa.htm".toList, none, "相关问答".toList⟩ [] []
        " ./P1.DOC ".toList "./qa.htm".toList "<p>first</p><p>second</p>".toList
        (portal "/zt/kjzzss/s/u/P1.DOC") (portal "/zt/kjzzss/s/u/qa.htm")
        (DLAttachment sampleSite (portal "/zt/kjzzss/s/u/P1.DOC")
          (cachedFetch sampleSite (portal "/zt/kjzzss/s/u/t2.htm") [] true
            (settleWrites St.init)).2).2
        (cachedFetch sampleSite (portal "/zt/kjzzss/s/u/qa.htm") [] true
          (settleWrites (DLAttachment sampleSite (portal "/zt/kjzzss/s/u/P1.DOC")
            (cachedFetch sampleSite (portal "/zt/kjzzss/s/u/t2.htm") [] true
              (settleWrites St.init)).2).2)).2
        ⟨200, (portal "/zt/kjzzss/s/u/qa.htm").toString, [3]⟩
        rfl rfl rfl rfl rfl rfl rfl rfl rfl),
   congrArg (fun r => r.2.files)
      ((saveHTML_composite sampleSite (portal "/zt/kjzzss/s/u/t1.htm") "one".toList
        "public/static/s/u/t1.htm".toList St.init
        (cachedFetch sampleSite (portal "/zt/kjzzss/s/u/t1.htm") [] true
          (settleWrites St.init)).2
        ⟨200, (portal "/zt/kjzzss/s/u/t1.htm").toString, [1]⟩ (by decide) rfl rfl).2
        rfl rfl)⟩

/-! ### Failures inside a document -/

/-- C4 on the script. The document `t6.htm` links the attachment `P2.doc`,
on which the extractor throws: `DLAttachment` fulfils with `undefined`, the
call `attachHtml("#attachment")` in `saveHTML` throws, and no page is
written. The document `t8.htm` links `P3.docx`, which mammoth rejects: the
page written holds an attachment block with the text `undefined`. -/
theorem saveHTML_conversion_failure :
    toLowerCase (extname (portal "/zt/kjzzss/s/u/P2.doc").toString) = ".doc".toList ∧
    parseDoc sampleSite [5] = .thrown "WORD.read failed" ∧
    (DLAttachment sampleSite (portal "/zt/kjzzss/s/u/P2.doc") St.init).1 = .ok none ∧
    (saveHTML sampleSite (portal "/zt/kjzzss/s/u/t6.htm") "six".toList
        (some "public/static/s/u/t6.htm".toList) "document".toList St.init).1 =
      .thrown "attachHtml is not a function" ∧
    (saveHTML sampleSite (portal "/zt/kjzzss/s/u/t6.htm") "six".toList
        (some "public/static/s/u/t6.htm".toList) "document".toList St.init).2.files = [] ∧
    (saveHTML sampleSite (portal "/zt/kjzzss/s/u/t8.htm") "eight".toList
        (some "public/static/s/u/t8.htm".toList) "document".toList St.init).2.files =
      [("public/static/s/u/t8.htm".toList,
        ⟨[stylesheetLink "../../../CasDoc.css".toList],
          [⟨"document".toList, "<h1>eight</h1>".toList⟩,
           ⟨"attachment".toList, "undefined".toList⟩]⟩)] := by
  decide

/-! ### The stylesheet reference -/

/-- C5 on the script. For the page `public/static/s/u/t1.htm`, two
directories below the static root, the reference injected is
`../../../CasDoc.css`: `path.relative` counts the file name of `docPath` as
a directory. From the directory of the page it leads to `public/CasDoc.css`,
not to the stylesheet `public/static/CasDoc.css`. -/
theorem saveHTML_stylesheet_href :
    pathJoin [pathJoin [staticDir, "s".toList, "u".toList], "t1.htm".toList] =
      "public/static/s/u/t1.htm".toList ∧
    (saveHTML sampleSite (portal "/zt/kjzzss/s/u/t1.htm") "one".toList
        (some "public/static/s/u/t1.htm".toList) "document".toList St.init).2.files =
      [("public/static/s/u/t1.htm".toList,
        ⟨["<link rel=\"stylesheet\" href=\"../../../CasDoc.css\" type=\"text/css\"/>".toList],
          [⟨"document".toList, "<h1>one</h1>".toList⟩]⟩)] ∧
    pathJoin [dirname "public/static/s/u/t1.htm".toList, "../../../CasDoc.css".toList] =
      "public/CasDoc.css".toList ∧
    pathJoin [staticDir, "CasDoc.css".toList] = "public/static/CasDoc.css".toList ∧
    pathJoin [dirname "public/static/s/u/t1.htm".toList, "../../CasDoc.css".toList] =
      "public/static/CasDoc.css".toList := by
  decide

/-! ### Paths -/

theorem splitOn_of_not_mem (sep : Char) (s : Text) (h : sep ∉ s) : splitOn sep s = [s] := by
  induction s with
  | nil => rfl
  | cons c cs ih =>
    have hc : ¬ c = sep := fun e => h (by simp [e])
    have hcs : sep ∉ cs := fun e => h (List.mem_cons_of_mem _ e)
    rw [splitOn, if_neg hc, ih hcs]

theorem splitOn_append_sep (sep : Char) (s rest : Text) (h : sep ∉ s) :
    splitOn sep (s ++ sep :: rest) = s :: splitOn sep rest := by
  induction s with
  | nil => simp [splitOn]
  | cons c cs ih =>
    have hc : ¬ c = sep := fun e => h (by simp [e])
    have hcs : sep ∉ cs := fun e => h (List.mem_cons_of_mem _ e)
    show splitOn sep (c :: (cs ++ sep :: rest)) = _
    rw [splitOn, if_neg hc, ih hcs]

theorem splitOn_joinWith (sep : Char) (segs : List Text) (hne : segs ≠ [])
    (h : ∀ s ∈ segs, sep ∉ s) : splitOn sep (joinWith [sep] segs) = segs := by
  induction segs with
  | nil => exact absurd rfl hne
  | cons x xs ih =>
    cases xs with
    | nil =>
      have : joinWith [sep] [x] = x := by simp [joinWith, List.intercalate]
      rw [this, splitOn_of_not_mem sep x (h x (List.mem_cons_self _ _))]
    | cons y ys =>
      rw [joinWith_cons_cons]
      have hx := h x (List.mem_cons_self _ _)
      have hrest := ih (by simp) (fun s hs => h s (List.mem_cons_of_mem _ hs))
      rw [show x ++ [sep] ++ joinWith [sep] (y :: ys) = x ++ sep :: joinWith [sep] (y :: ys)
        by simp, splitOn_append_sep sep x _ hx, hrest]

theorem normalizeSegs_names (above : Bool) (segs acc : List Text)
    (h : ∀ s ∈ segs, isName s) : normalizeSegs above acc segs = acc.reverse ++ segs := by
  induction segs generalizing acc with
  | nil => simp [normalizeSegs]
  | cons s rest ih =>
    obtain ⟨h1, h2, h3, _⟩ := h s (List.mem_cons_self _ _)
    have hstep : normalizeSegs above acc (s :: rest) = normalizeSegs above (s :: acc) rest := by
      cases acc <;> simp [normalizeSegs, h1, h2, h3]
    rw [hstep, ih (s :: acc) (fun t ht => h t (List.mem_cons_of_mem _ ht))]
    simp

theorem dropCommon_append (common a b : List Text) :
    dropCommon (common ++ a) (common ++ b) = dropCommon a b := by
  induction common with
  | nil => rfl
  | cons c cs ih =>
    show dropCommon (c :: (cs ++ a)) (c :: (cs ++ b)) = _
    rw [dropCommon]
    simp [ih]

theorem splitOn_snoc_form (sep : Char) (dir : Text) :
    ∃ (front : List Text) (last : Text), (∀ d ∈ front, sep ∉ d) ∧ sep ∉ last ∧
      ∀ name, sep ∉ name → splitOn sep (dir ++ name) = front ++ [last ++ name] := by
  induction dir with
  | nil => exact ⟨[], [], by simp, by simp, fun name h => by simp [splitOn_of_not_mem sep name h]⟩
  | cons c cs ih =>
    obtain ⟨front, last, hfront, hlast, hsplit⟩ := ih
    by_cases hc : c = sep
    · refine ⟨[] :: front, last, ?_, hlast, ?_⟩
      · intro d hd
        rcases List.mem_cons.1 hd with h | h
        · simp [h]
        · exact hfront d h
      · intro name hname
        show splitOn sep (c :: (cs ++ name)) = _
        rw [splitOn, if_pos hc, hsplit name hname]
        rfl
    · cases front with
      | nil =>
        refine ⟨[], c :: last, by simp, ?_, ?_⟩
        · intro h
          rcases List.mem_cons.1 h with h | h
          · exact hc h.symm
          · exact hlast h
        · intro name hname
          show splitOn sep (c :: (cs ++ name)) = _
          rw [splitOn, if_neg hc, hsplit name hname]
          rfl
      | cons d ds =>
        refine ⟨(c :: d) :: ds, last, ?_, hlast, ?_⟩
        · intro x hx
          rcases List.mem_cons.1 hx with h | h
          · rw [h]
            intro hm
            rcases List.mem_cons.1 hm with h2 | h2
            · exact hc h2.symm
            · exact hfront d (List.mem_cons_self _ _) h2
          · exact hfront x (List.mem_cons_of_mem _ h)
        · intro name hname
          show splitOn sep (c :: (cs ++ name)) = _
          rw [splitOn, if_neg hc, hsplit name hname]
          rfl

theorem joinWith_snoc (sep : Text) (parts : List Text) (last : Text) :
    joinWith sep (parts ++ [last]) = parts.flatMap (fun s => s ++ sep) ++ last := by
  induction parts with
  | nil => simp [joinWith, List.intercalate]
  | cons x xs ih =>
    cases xs with
    | nil =>
      show joinWith sep [x, last] = _
      rw [joinWith_cons_cons]
      simp [joinWith, List.intercalate, List.flatMap]
    | cons y ys =>
      show joinWith sep (x :: y :: (ys ++ [last])) = _
      rw [joinWith_cons_cons]
      have := ih
      simp only [List.cons_append] at this
      rw [this]
      simp [List.flatMap]

theorem normalizeSegs_snoc (above : Bool) (segs : List Text) (name : Text)
    (h1 : name ≠ []) (h2 : name ≠ ['.']) (h3 : name ≠ ['.', '.']) :
    ∀ acc, normalizeSegs above acc (segs ++ [name]) = normalizeSegs above acc segs ++ [name] := by
  induction segs with
  | nil =>
    intro acc
    cases acc <;> simp [normalizeSegs, h1, h2, h3]
  | cons s rest ih =>
    intro acc
    show normalizeSegs above acc (s :: (rest ++ [name])) = _
    rw [normalizeSegs.eq_def, normalizeSegs.eq_def above acc (s :: rest)]
    simp only
    split
    · exact ih _
    · split
      · cases acc with
        | nil => exact ih _
        | cons a acc' =>
          simp only
          split
          · exact ih _
          · exact ih _
      · exact ih _

theorem pathJoin_cache_snoc (front : List Text) (name : Text) (hfront : ∀ d ∈ front, '/' ∉ d)
    (hname : '/' ∉ name) (hlen : 3 ≤ name.length) :
    pathJoin (cacheDir :: (front ++ [name])) =
      (normalizeSegs true [] ((cacheDir :: front).filter (fun s => s ≠ []))).flatMap
        (fun s => s ++ ['/']) ++ name := by
  have h1 : name ≠ [] := by intro e; rw [e] at hlen; simp at hlen
  have h2 : name ≠ ['.'] := by intro e; rw [e] at hlen; simp at hlen
  have h3 : name ≠ ['.', '.'] := by intro e; rw [e] at hlen; simp at hlen
  have hfilter : (cacheDir :: (front ++ [name])).filter (fun s => s ≠ []) =
      (cacheDir :: front).filter (fun s => s ≠ []) ++ [name] := by
    simp [List.filter_cons, cacheDir, h1]
  have hhead : ∃ rest, (cacheDir :: front).filter (fun s => s ≠ []) = cacheDir :: rest :=
    ⟨front.filter (fun s => s ≠ []), by simp [List.filter_cons, cacheDir]⟩
  obtain ⟨rest, hrest⟩ := hhead
  have hsegs : ∀ s ∈ (cacheDir :: front).filter (fun s => s ≠ []) ++ [name], '/' ∉ s := by
    intro s hs
    rcases List.mem_append.1 hs with h | h
    · have := (List.mem_filter.1 h).1
      rcases List.mem_cons.1 this with h | h
      · rw [h]; decide
      · exact hfront s h
    · simp at h; rw [h]; exact hname
  have hjoin := joinWith_snoc ['/'] ((cacheDir :: front).filter (fun s => s ≠ [])) name
  have hne : joinWith ['/'] ((cacheDir :: front).filter (fun s => s ≠ []) ++ [name]) ≠ [] := by
    rw [hjoin]; simp [h1]
  have habs : (joinWith ['/'] ((cacheDir :: front).filter (fun s => s ≠ []) ++ [name])).head? ≠
      some '/' := by
    rw [hjoin, hrest]
    simp [List.flatMap, cacheDir]
  have hlast : ∀ (pre : Text), (pre ++ name).getLast? ≠ some '/' := by
    intro pre e
    rw [List.getLast?_append] at e
    cases hn : name.getLast? with
    | none => exact h1 (List.getLast?_eq_none_iff.1 hn)
    | some c =>
      rw [hn] at e
      simp at e
      rw [e] at hn
      exact hname (List.mem_of_getLast?_eq_some hn)
  have htrail : (joinWith ['/'] ((cacheDir :: front).filter (fun s => s ≠ []) ++ [name])).getLast? ≠
      some '/' := by
    rw [hjoin]; exact hlast _
  have hsplit := splitOn_joinWith '/' ((cacheDir :: front).filter (fun s => s ≠ []) ++ [name])
    (by simp) hsegs
  have hnorm := normalizeSegs_snoc true ((cacheDir :: front).filter (fun s => s ≠ [])) name
    h1 h2 h3 []
  have hbody := joinWith_snoc ['/']
    (normalizeSegs true [] ((cacheDir :: front).filter (fun s => s ≠ []))) name
  have hbne : joinWith ['/'] (normalizeSegs true []
      ((cacheDir :: front).filter (fun s => s ≠ [])) ++ [name]) ≠ [] := by
    rw [hbody]; simp [h1]
  have hkey : pathJoin (cacheDir :: (front ++ [name])) =
      pathNormalize (joinWith ['/'] ((cacheDir :: front).filter (fun s => s ≠ []) ++ [name])) := by
    unfold pathJoin
    rw [hfilter, hrest]
    rfl
  rw [hkey]
  unfold pathNormalize
  simp only [hne, habs, htrail, hsplit, hnorm, hbne, if_false, decide_False, Bool.not_false]
  exact hbody

theorem cachePath_resolveName (url : Url) :
    ∃ root : Text, ∀ name, '/' ∉ name → 3 ≤ name.length →
      cachePath (Url.resolveName name url) = root ++ name := by
  obtain ⟨front, last, hfront, hlast, hsplit⟩ :=
    splitOn_snoc_form '/' (url.pathname.reverse.dropWhile (fun c => c ≠ '/')).reverse
  refine ⟨(normalizeSegs true [] ((cacheDir :: front).filter (fun s => s ≠ []))).flatMap
    (fun s => s ++ ['/']) ++ last, ?_⟩
  intro name hname hlen
  have hne : last ++ name ≠ [] := by
    intro e
    have hnil : name = [] := (List.append_eq_nil.1 e).2
    rw [hnil] at hlen
    simp at hlen
  unfold cachePath Url.resolveName
  simp only [hsplit name hname, List.getLastD_concat, List.dropLast_concat, hne, if_false]
  rw [pathJoin_cache_snoc front (last ++ name) hfront
    (by simp [hlast, hname]) (by simp; omega)]
  simp

theorem pageName_bounded :
    (∀ i, i < 100 → '/' ∉ pageName i ∧ 3 ≤ (pageName i).length) ∧
    (∀ i, i < 100 → ∀ j, j < 100 → pageName i = pageName j → i = j) := by
  have hnum : ∀ i, i < 100 → pageNumberOf (pageName i) = i := by decide!
  refine ⟨by decide!, ?_⟩
  intro i hi j hj e
  rw [← hnum i hi, ← hnum j hj, e]

theorem cachePath_pageUrl_ne (url : Url) (i j : Nat) (hi : i < 100) (hj : j < 100)
    (hij : i ≠ j) : cachePath (pageUrl url i) ≠ cachePath (pageUrl url j) := by
  obtain ⟨root, hroot⟩ := cachePath_resolveName url
  intro e
  unfold pageUrl at e
  rw [hroot _ (pageName_bounded.1 i hi).1 (pageName_bounded.1 i hi).2,
    hroot _ (pageName_bounded.1 j hj).1 (pageName_bounded.1 j hj).2] at e
  exact hij (pageName_bounded.2 i hi j hj (List.append_cancel_left e))

/-! ### Index discovery -/

theorem cachedFetch_lookup (w : World) (url : Url) (st : St) (r : Response)
    (h : lookup w st.cache url = some r) :
    ∃ st1, cachedFetch w url [] true st = (.ok r, st1) ∧ st1.indexes = st.indexes ∧
      ∀ p, p ≠ cachePath url → (settleWrites st1).cache p = (settleWrites st).cache p := by
  unfold lookup at h
  cases hc : st.cache (cachePath url) with
  | some bytes =>
    rw [hc] at h
    simp only [Option.some.injEq] at h
    exact ⟨st, by simp [cachedFetch, hc, h], rfl, fun _ _ => rfl⟩
  | none =>
    rw [hc] at h
    simp only at h
    refine ⟨_, cachedFetch_of_miss w url [] st r hc h, rfl, ?_⟩
    intro p hp
    simp [settleWrites, List.foldl_append, writeCache, hp]

theorem pushDescriptor_ok (w : World) (item : SubSection) (dom : Anchor) (d : Descriptor)
    (st : St) (h : descriptorOf w item dom = some d) :
    pushDescriptor w item (docDirOf item) dom st =
      (.ok (), { st with indexes := st.indexes ++ [d] }) := by
  unfold descriptorOf at h
  cases ht : dom.title with
  | none => simp [ht] at h
  | some title =>
    cases hh : dom.href with
    | none => simp [ht, hh] at h
    | some href =>
      cases hr : w.resolve (trim href) item.url with
      | none => simp [ht, hh, hr] at h
      | some docUrl =>
        simp only [ht, hh, hr, Option.some.injEq] at h
        subst h
        simp [pushDescriptor, ht, hh, hr, attrOrThrow, newURL, bind, Async.bind, pure, modifySt]

theorem forM_pushDescriptor (w : World) (item : SubSection) (doms : List Anchor)
    (ds : List Descriptor) (st : St) (h : collectSome (descriptorOf w item) doms = some ds) :
    doms.forM (pushDescriptor w item (docDirOf item)) st =
      (.ok (), { st with indexes := st.indexes ++ ds }) := by
  induction doms generalizing ds st with
  | nil =>
    simp only [collectSome, Option.some.injEq] at h
    subst h
    simp [pure]
  | cons dom rest ih =>
    rw [collectSome] at h
    cases hd : descriptorOf w item dom with
    | none => simp [hd] at h
    | some d =>
      cases hrest : collectSome (descriptorOf w item) rest with
      | none => simp [hd, hrest] at h
      | some ds' =>
        simp only [hd, hrest, Option.some.injEq] at h
        subst h
        rw [List.forM_cons', bind_of_ok _ _ st _ () (pushDescriptor_ok w item dom d st hd)]
        rw [ih ds' _ hrest]
        simp

theorem range'_flatMap_succ (descs : Nat → List Descriptor) (i n : Nat) :
    (List.range' i (n + 1)).flatMap descs = descs i ++ (List.range' (i + 1) n).flatMap descs := by
  simp [List.range'_succ, List.flatMap]

theorem length_flatMap_singleton (d : Descriptor) (i n : Nat) :
    (St.init.indexes ++ (List.range' i (n - 0)).flatMap (fun _ => [d])).length = n := by
  have hinit : St.init.indexes = [] := rfl
  rw [hinit, Nat.sub_zero, List.nil_append]
  induction n generalizing i with
  | zero => rfl
  | succ n ih =>
    rw [range'_flatMap_succ, List.length_append, ih]
    simp
    omega

theorem lookup_congr (w : World) (cache1 cache2 : Text → Option Bytes) (url : Url)
    (h : cache1 (cachePath url) = cache2 (cachePath url)) :
    lookup w cache1 url = lookup w cache2 url := by
  unfold lookup
  rw [h]

theorem pageLoop_pages (w : World) (item : SubSection) (cache : Text → Option Bytes) (k : Nat)
    (resp : Nat → Response) (descs : Nat → List Descriptor) (hk : k ≤ 99)
    (hpages : ∀ i, i < k → lookup w cache (pageUrl item.url i) = some (resp i) ∧
      (resp i).ok = true ∧ (resp i).url ≠ notFoundUrl ∧
      pageDescriptors w item (resp i).body = some (descs i))
    (hstop : k < 99 → ∃ r, lookup w cache (pageUrl item.url k) = some r ∧
      (r.ok = false ∨ r.url = notFoundUrl)) :
    ∀ (left i : Nat) (st : St), i + left = 99 → i ≤ k →
      (∀ p, (∀ j, j < i → p ≠ cachePath (pageUrl item.url j)) →
        (settleWrites st).cache p = cache p) →
      (pageLoop w item (docDirOf item) left i st).1 = .ok () ∧
      (pageLoop w item (docDirOf item) left i st).2.indexes =
        st.indexes ++ (List.range' i (k - i)).flatMap descs := by
  intro left
  induction left with
  | zero =>
    intro i st hi hik _
    have hz : k - i = 0 := by omega
    rw [hz]
    simp [pageLoop, pure]
  | succ left ih =>
    intro i st hi hik hcache
    have hown : (settleWrites st).cache (cachePath (pageUrl item.url i)) =
        cache (cachePath (pageUrl item.url i)) :=
      hcache _ (fun j hj => cachePath_pageUrl_ne item.url i j (by omega) (by omega) (by omega))
    have hsame := lookup_congr w _ _ (pageUrl item.url i) hown
    rw [pageLoop, bind_of_ok _ _ st (settleWrites st) () rfl]
    by_cases hlt : i < k
    · obtain ⟨hlook, hok, hurl, hdesc⟩ := hpages i hlt
      rw [← hsame] at hlook
      obtain ⟨st1, hfetch, hi1, hc1⟩ := cachedFetch_lookup w _ (settleWrites st) _ hlook
      rw [bind_of_ok _ _ _ st1 _ hfetch]
      simp only [hok, hurl, Bool.not_true, Bool.false_eq_true, or_self, if_false]
      rw [bind_of_ok _ _ st1 _ () (forM_pushDescriptor w item _ _ st1 hdesc)]
      have hnext := ih (i + 1) { st1 with indexes := st1.indexes ++ descs i } (by omega)
        (by omega) (by
          intro p hp
          have h1 : (settleWrites { st1 with indexes := st1.indexes ++ descs i }).cache p =
              (settleWrites st1).cache p := rfl
          have h2 : (settleWrites (settleWrites st)).cache p = (settleWrites st).cache p := rfl
          rw [h1, hc1 p (hp i (by omega)), h2]
          exact hcache p (fun j hj => hp j (by omega)))
      refine ⟨hnext.1, ?_⟩
      rw [hnext.2]
      have hsplit : k - i = (k - (i + 1)) + 1 := by omega
      have hidx : st1.indexes = st.indexes := hi1
      rw [hsplit, range'_flatMap_succ, hidx]
      simp
    · have hik2 : k = i := by omega
      subst hik2
      obtain ⟨r, hlook, hbad⟩ := hstop (by omega)
      rw [← hsame] at hlook
      obtain ⟨st1, hfetch, hi1, _⟩ := cachedFetch_lookup w _ (settleWrites st) _ hlook
      rw [bind_of_ok _ _ _ st1 _ hfetch]
      have hcond : r.url = notFoundUrl ∨ (!r.ok) = true := by
        rcases hbad with h | h
        · right; simp [h]
        · left; exact h
      have hidx : st1.indexes = st.indexes := hi1
      simp only [hcond, if_true]
      simp [pure, hidx]

/-- C2, as the script has it. Let page `k` be the first listing page that
answers non-OK or resolves to the redirect target `404.htm`, with `k` at
most 99 (beyond 98 no page is asked for, so `k = 99` needs no such page),
and let every list-item link of the pages before `k` have a title and an
href that resolves. Then `generateIndex` fulfils and appends to `indexes`
the descriptors of the links of pages `0..k-1`, page by page, and nothing
else. The response of a page is what `cachedFetch` answers for it once the
cache writes in flight at the call have landed, which they do in the second
of `sleep` before page 0 is asked for. -/
theorem generateIndex_pages (w : World) (item : SubSection) (st : St) (k : Nat)
    (resp : Nat → Response) (descs : Nat → List Descriptor) (hk : k ≤ 99)
    (hpages : ∀ i, i < k →
      lookup w (settleWrites st).cache (pageUrl item.url i) = some (resp i) ∧
      (resp i).ok = true ∧ (resp i).url ≠ notFoundUrl ∧
      pageDescriptors w item (resp i).body = some (descs i))
    (hstop : k < 99 → ∃ r, lookup w (settleWrites st).cache (pageUrl item.url k) = some r ∧
      (r.ok = false ∨ r.url = notFoundUrl)) :
    (generateIndex w item st).1 = .ok () ∧
    (generateIndex w item st).2.indexes = st.indexes ++ (List.range k).flatMap descs := by
  have h := pageLoop_pages w item (settleWrites st).cache k resp descs hk hpages hstop 99 0 st
    (by omega) (by omega) (fun _ _ => rfl)
  rw [List.range_eq_range']
  exact h

theorem generateIndex_pages_witness :
    ((generateIndex listingSite casesSub St.init).1 = .ok () ∧
     (generateIndex listingSite casesSub St.init).2.indexes =
      St.init.indexes ++ (List.range 1).flatMap (fun _ =>
        [(⟨portal "/zt/kjzzss/srzzzq/cases/t1.htm", "Case 1".toList,
          "企业会计准则 > 应用案例 > 收入准则应用案例 > Case 1".toList,
          "public/static/srzzzq/cases/t1.htm".toList⟩ : Descriptor)])) ∧
    ((generateIndex listingSite (wholeSection "srzzzq" "应用案例") afterListing).1 = .ok () ∧
     (generateIndex listingSite (wholeSection "srzzzq" "应用案例") afterListing).2.indexes =
      afterListing.indexes ++ (List.range 1).flatMap (fun _ =>
        [(⟨portal "/zt/kjzzss/srzzzq/t1.htm", "Case 1".toList,
          "企业会计准则 > 应用案例 >  > Case 1".toList,
          "public/static/srzzzq/t1.htm".toList⟩ : Descriptor)])) :=
  ⟨generateIndex_pages listingSite casesSub St.init 1
    (fun _ => ⟨200, "http://kjs.mof.gov.cn/zt/kjzzss/srzzzq/cases/index.htm".toList, [11]⟩)
    (fun _ => [⟨portal "/zt/kjzzss/srzzzq/cases/t1.htm", "Case 1".toList,
      "企业会计准则 > 应用案例 > 收入准则应用案例 > Case 1".toList,
      "public/static/srzzzq/cases/t1.htm".toList⟩])
    (by decide)
    (by
      intro i hi
      obtain rfl : i = 0 := by omega
      decide)
    (fun _ => ⟨⟨404, "http://kjs.mof.gov.cn/zt/kjzzss/srzzzq/cases/index_1.htm".toList, []⟩,
      by decide⟩),
   generateIndex_pages listingSite (wholeSection "srzzzq" "应用案例") afterListing 1
    (fun _ => ⟨200, [], [11]⟩)
    (fun _ => [⟨portal "/zt/kjzzss/srzzzq/t1.htm", "Case 1".toList,
      "企业会计准则 > 应用案例 >  > Case 1".toList, "public/static/srzzzq/t1.htm".toList⟩])
    (by decide)
    (by
      intro i hi
      obtain rfl : i = 0 := by omega
      decide)
    (fun _ => ⟨⟨404, "http://kjs.mof.gov.cn/zt/kjzzss/srzzzq/index_1.htm".toList, []⟩,
      by decide⟩)⟩

/-- C2 as stated fails. In the sub-section `qa` page 0 answers 200 from the
redirect target `404.htm` and lists a document, and page 1 is the first to
answer non-OK: no descriptor is appended. On the long site page 100 is the
first to answer non-OK and pages 0 to 99 list a document each: 99
descriptors are appended, not 100. -/
theorem generateIndex_stops_early :
    lookup listingSite (settleWrites St.init).cache (pageUrl qaSub.url 0) =
      some ⟨200, notFoundUrl, [11]⟩ ∧
    pageDescriptors listingSite qaSub [11] =
      some [⟨portal "/zt/kjzzss/sswd/qa/t1.htm", "Case 1".toList,
        "企业会计准则 > 实施问答 > 问答 > Case 1".toList,
        "public/static/sswd/qa/t1.htm".toList⟩] ∧
    lookup listingSite (settleWrites St.init).cache (pageUrl qaSub.url 1) =
      some ⟨404, "http://kjs.mof.gov.cn/zt/kjzzss/sswd/qa/index_1.htm".toList, []⟩ ∧
    (generateIndex listingSite qaSub St.init).2.indexes = [] ∧
    (∀ i, i < 100 → (lookup longSite (settleWrites St.init).cache
      (pageUrl casesSub.url i)).map (fun r => (r.ok, r.url == notFoundUrl, r.body)) =
        some (true, false, [11])) ∧
    (lookup longSite (settleWrites St.init).cache (pageUrl casesSub.url 100)).map
      (fun r => r.ok) = some false ∧
    (generateIndex longSite casesSub St.init).2.indexes.length = 99 := by
  refine ⟨?_, ?_, ?_, ?_, ?_, ?_, ?_⟩
  · decide
  · decide
  · decide
  · decide
  · decide!
  · decide!
  · have hpages : ∀ i, i < 99 →
        lookup longSite (settleWrites St.init).cache (pageUrl casesSub.url i) =
          some ⟨200, (pageUrl casesSub.url i).toString, [11]⟩ ∧
        (⟨200, (pageUrl casesSub.url i).toString, [11]⟩ : Response).ok = true ∧
        (⟨200, (pageUrl casesSub.url i).toString, [11]⟩ : Response).url ≠ notFoundUrl ∧
        pageDescriptors longSite casesSub
          (⟨200, (pageUrl casesSub.url i).toString, [11]⟩ : Response).body =
          some [⟨portal "/zt/kjzzss/srzzzq/cases/t1.htm", "Case 1".toList,
            "企业会计准则 > 应用案例 > 收入准则应用案例 > Case 1".toList,
            "public/static/srzzzq/cases/t1.htm".toList⟩] := by
      decide!
    have h := (pageLoop_pages longSite casesSub (settleWrites St.init).cache 99
      (fun i => ⟨200, (pageUrl casesSub.url i).toString, [11]⟩)
      (fun _ => [⟨portal "/zt/kjzzss/srzzzq/cases/t1.htm", "Case 1".toList,
        "企业会计准则 > 应用案例 > 收入准则应用案例 > Case 1".toList,
        "public/static/srzzzq/cases/t1.htm".toList⟩])
      (by omega) hpages (fun h => absurd h (by omega)) 99 0 St.init (by omega) (by omega)
      (fun _ _ => rfl)).2
    unfold generateIndex
    rw [h]
    exact length_flatMap_singleton _ 0 99

/-! ### The driver -/

/-- C3 on the script. The listing of the section `qitgd` answers 404:
`getIndex` fulfils with `undefined`, the spread of it into `push` throws,
and `main` is rejected before any page or `index.json` is written. With
that listing answering 200 the same run fulfils and writes an index of the
five documents. -/
theorem main_rejects_on_skipped_section :
    lookup listingSite St.init.cache (Url.resolveName "qitgd/".toList BASEURL) =
      some ⟨404, "http://kjs.mof.gov.cn/zt/kjzzss/qitgd/".toList, []⟩ ∧
    (getIndex listingSite "qitgd".toList "其他规定".toList St.init).1 = .ok none ∧
    (main listingSite St.init).1 = .thrown "idx is not iterable" ∧
    (main listingSite St.init).2.indexJson = none ∧
    (main listingSite St.init).2.files = [] ∧
    (main healthySite St.init).1 = .ok () ∧
    (main healthySite St.init).2.indexJson.map List.length = some 5 := by
  refine ⟨by decide, by decide, by decide!, by decide!, by decide!, by decide!, by decide!⟩

/-! ### The two failures, for every environment -/

/-- A section whose listing answers non-OK: `getIndex` fulfils with
`undefined`, and the task of `main` for that section is rejected. -/
theorem getIdxTask_rejects (w : World) (sectionKey secName : Text) (st st1 : St)
    (res : Response)
    (hfetch : cachedFetch w (Url.resolveName (sectionKey ++ ['/']) BASEURL) [] true st =
      (.ok res, st1))
    (hbad : res.ok = false) :
    getIndex w sectionKey secName st = (.ok none, st1) ∧
    getIdxTask w (sectionKey, secName) st = (.thrown "idx is not iterable", st1) := by
  have hget : getIndex w sectionKey secName st = (.ok none, st1) := by
    unfold getIndex
    rw [bind_of_ok _ _ st st1 res hfetch]
    simp [hbad, pure]
  refine ⟨hget, ?_⟩
  unfold getIdxTask
  rw [bind_of_ok _ _ st st1 none hget]
  rfl

/-- A document whose attachment step ends with `undefined`: `saveHTML` is
rejected, and no page is written by it. -/
theorem saveHTML_rejects (w : World) (docUrl : Url) (docName : Text) (docPath : Option Text)
    (st st1 st2 : St) (res : Response) (a : Anchor) (as : List Anchor) (ha : Text)
    (attachUrl : Url)
    (hfetch : cachedFetch w docUrl [] true (settleWrites st) = (.ok res, st1))
    (hok : res.ok = true) (hatt : w.attachLinks res.body = a :: as) (hah : a.href = some ha)
    (hares : w.resolve (trim ha) docUrl = some attachUrl)
    (hdl : DLAttachment w attachUrl st1 = (.ok none, st2)) :
    saveHTML w docUrl docName docPath "document".toList st =
      (.thrown "attachHtml is not a function", st2) := by
  show saveHTMLBody (saveHTMLFuel w 1) w docUrl docName docPath "document".toList st = _
  unfold saveHTMLBody
  rw [bind_of_ok _ _ st (settleWrites st) () rfl, bind_of_ok _ _ _ st1 res hfetch]
  simp only [hok, hatt, List.head?_cons, Option.some_bind, hah, attrOrThrow,
    newURL, hares, Bool.not_true, Bool.false_eq_true, if_false, true_and, ne_eq,
    not_false_eq_true, if_true, reduceCtorEq, bind, Async.bind, pure, hdl, throwJs]

/-- A supported attachment whose converter throws: `DLAttachment` fulfils
with `undefined`. -/
theorem DLAttachment_undefined (w : World) (url : Url) (st st1 : St) (res : Response)
    (parser : World → Bytes → Outcome (Option Text)) (e : String)
    (hparser : parsers (toLowerCase (extname url.toString)) = some parser)
    (hfetch : cachedFetch w url [] true st = (.ok res, st1))
    (hthrow : parser w res.body = .thrown e) :
    (DLAttachment w url st).1 = .ok none := by
  rw [DLAttachment_supported w url st st1 res parser hparser hfetch, hthrow]
  rfl

/-! ### The stylesheet reference, for every page two directories deep -/

/-- For every page `public/static/<sec>/<sub>/<file>` made of names, under
every working directory made of names, the reference `saveHTML` injects is
`../../../CasDoc.css`; from the directory `public/static/<sec>/<sub>` of the
page it leads to `public/CasDoc.css`. -/
theorem cssPathOf_two_deep (cwd : List Text) (sec sub file : Text)
    (hcwd : ∀ s ∈ cwd, isName s) (hsec : isName sec) (hsub : isName sub)
    (hfile : isName file) (hne : sec ≠ "CasDoc.css".toList) :
    cssPathOf cwd (joinWith ['/'] ["public".toList, "static".toList, sec, sub, file]) =
      "../../../CasDoc.css".toList ∧
    normalizeSegs true [] (["public".toList, "static".toList, sec, sub] ++
      splitOn '/' "../../../CasDoc.css".toList) = ["public".toList, "CasDoc.css".toList] := by
  have hpub : isName "public".toList := by refine ⟨?_, ?_, ?_, ?_⟩ <;> decide
  have hstat : isName "static".toList := by refine ⟨?_, ?_, ?_, ?_⟩ <;> decide
  have hcss : isName "CasDoc.css".toList := by refine ⟨?_, ?_, ?_, ?_⟩ <;> decide
  have hsegs : ∀ s ∈ ["public".toList, "static".toList, sec, sub, file], isName s := by
    intro s hs
    simp only [List.mem_cons, List.mem_singleton, List.not_mem_nil, or_false] at hs
    rcases hs with h | h | h | h | h <;> rw [h] <;> assumption
  have hsplit : splitOn '/' (joinWith ['/'] ["public".toList, "static".toList, sec, sub, file]) =
      ["public".toList, "static".toList, sec, sub, file] :=
    splitOn_joinWith '/' _ (by simp) (fun s hs => (hsegs s hs).2.2.2)
  have htarget : pathJoin [staticDir, "CasDoc.css".toList] = "public/static/CasDoc.css".toList := by
    decide
  have htsplit : splitOn '/' "public/static/CasDoc.css".toList =
      ["public".toList, "static".toList, "CasDoc.css".toList] := by decide
  have hhead : (joinWith ['/'] ["public".toList, "static".toList, sec, sub, file]).head? ≠
      some '/' := by
    rw [joinWith_cons_cons]
    simp
  have hdiff : joinWith ['/'] ["public".toList, "static".toList, sec, sub, file] ≠
      "public/static/CasDoc.css".toList := by
    intro e
    have := congrArg (fun p => (splitOn '/' p).length) e
    simp only [hsplit, htsplit] at this
    simp at this
  have hsrc : pathResolve cwd (joinWith ['/'] ["public".toList, "static".toList, sec, sub, file]) =
      cwd ++ ["public".toList, "static".toList, sec, sub, file] := by
    unfold pathResolve
    rw [if_neg hhead, hsplit, normalizeSegs_names]
    · rfl
    · intro s hs
      rcases List.mem_append.1 hs with h | h
      · exact hcwd s h
      · exact hsegs s h
  have htgt : pathResolve cwd "public/static/CasDoc.css".toList =
      cwd ++ ["public".toList, "static".toList, "CasDoc.css".toList] := by
    unfold pathResolve
    rw [if_neg (by decide), htsplit, normalizeSegs_names]
    · rfl
    · intro s hs
      rcases List.mem_append.1 hs with h | h
      · exact hcwd s h
      · simp only [List.mem_cons, List.mem_singleton, List.not_mem_nil, or_false] at h
        rcases h with h | h | h <;> rw [h] <;> assumption
  constructor
  · unfold cssPathOf pathRelative
    rw [htarget]
    simp only [if_neg hdiff, hsrc, htgt, dropCommon_append]
    have hdrop : dropCommon ["public".toList, "static".toList, sec, sub, file]
        ["public".toList, "static".toList, "CasDoc.css".toList] =
        ([sec, sub, file], ["CasDoc.css".toList]) := by
      have hne2 : ¬ sec = ['C', 'a', 's', 'D', 'o', 'c', '.', 'c', 's', 's'] := hne
      simp [dropCommon, hne2]
    rw [hdrop]
    show pathJoin (splitOn '/' "../../../CasDoc.css".toList) = _
    decide
  · have hup : splitOn '/' "../../../CasDoc.css".toList =
        [['.', '.'], ['.', '.'], ['.', '.'], "CasDoc.css".toList] := by decide
    rw [hup]
    obtain ⟨s1, s2, s3, _⟩ := hsec
    obtain ⟨u1, u2, u3, _⟩ := hsub
    simp [normalizeSegs, s1, s2, s3, u1, u2, u3]

end CasDoc
